import Mathlib

/-!
Verification of the `stevejuma/pkg` library: the Lucene query parser
(PEG grammar in the repository), the SQL generator
(`lucenequery/sql/generator.go`) and the field-mask parser.

The embedding is a shallow one:

* Go's untyped `interface{}` slot that carries scalars, wildcard structs,
  slices and AST nodes is modelled by the inductive type `IVal`.
* The PEG grammar (a pigeon grammar compiled to Go) is modelled by a
  committed-choice parser on `List Char`: ordered choice is `<|>` on an
  `Option`-valued state function, which is exactly PEG semantics (once an
  alternative succeeds it is never revisited).  Recursive rules take a
  fuel argument; `parseLucene` supplies a fuel budget that dominates the
  recursion depth on any input (nesting consumes input).
* `float64` values produced by `strconv.ParseFloat` are carried as their
  source literal (`IVal.dec`); no claim inspects a decimal numerically and
  the renderer passes values through opaquely into the argument vector.
* Go errors become an inductive `Err`; fallible functions return `Except`.

Deviations, each harmless for the claims and noted where relevant:
pigeon records semantic-action errors globally while here an action
failure fails the alternative (no action error fires on any input used
in a theorem); `strconv.Atoi` overflow at 2^63 is ignored (Lean `Int` is
unbounded); `\uXXXX` surrogate-pair combining in `strconv.Unquote` is
simplified to the replacement character for lone surrogates.
-/

/-- Committed-choice (PEG) parser over a character list. -/
def P (α : Type) : Type := List Char → Option (α × List Char)

instance : Monad P where
  pure a := fun s => some (a, s)
  bind p f := fun s =>
    match p s with
    | some (a, s') => f a s'
    | none => none

instance : Alternative P where
  failure := fun _ => none
  orElse p q := fun s =>
    match p s with
    | some r => some r
    | none => q () s

/-- Accept one character satisfying `pred`. -/
def satisfy (pred : Char → Bool) : P Char := fun s =>
  match s with
  | c :: cs => if pred c then some (c, cs) else none
  | [] => none

/-- Accept the literal character `c`. -/
def pchar (c : Char) : P Char := satisfy (fun d => d == c)

/-- Accept the literal string `t`. -/
def pstr (t : String) : P String := fun s =>
  if List.isPrefixOf t.data s then some (t, s.drop t.data.length) else none

/-- A literal `t` whose semantic action returns `r` (pigeon `"t" then return r`). -/
def lit (t r : String) : P String := do
  let _ ← pstr t
  pure r

/-- End of input (`EOF <- !.`). -/
def eofP : P Unit := fun s =>
  match s with
  | [] => some ((), [])
  | _ => none

/-- Zero-or-more repetition.  PEG repetition is greedy and deterministic;
fuel is the input length, enough because every iteration must consume
input (a non-consuming success stops the loop; no rule of either grammar
matches empty inside a repetition). -/
def manyAux (p : P α) : Nat → List Char → (List α × List Char)
  | 0, s => ([], s)
  | Nat.succ n, s =>
    match p s with
    | none => ([], s)
    | some (a, s') =>
      if s'.length < s.length then
        let r := manyAux p n s'
        (a :: r.1, r.2)
      else ([], s)

def manyA (p : P α) : P (List α) := fun s => some (manyAux p s.length s)

def many1A (p : P α) : P (List α) := do
  let a ← p
  let as ← manyA p
  pure (a :: as)

def optA (p : P α) : P (Option α) := (some <$> p) <|> pure none

/-- Go's untyped `interface{}` universe as used by the parser and renderer:
scalars, `WildCardQuery` (`wc`), slices (`arr`), and the three AST structs
`TermQuery` (`termQ`), `RangeQuery` (`rangeQ`), `BooleanExpression`
(`boolE`).  `wc`'s fields are `Prefix`/`Suffix`/`Term` in the source,
renamed `pfx`/`sfx`/`term` here. -/
inductive IVal where
  | null : IVal
  | bool (b : Bool) : IVal
  | int (n : Int) : IVal
  | dec (lt : String) : IVal
  | str (s : String) : IVal
  | wc (pfx sfx term : String) : IVal
  | arr (elems : List IVal) : IVal
  | termQ (term pfx op : String) (value : IVal) : IVal
  | rangeQ (min max : IVal) (term : String) (inclusive : Bool) : IVal
  | boolE (op : String) (args : List IVal) : IVal

/-! ### Character classes and whitespace (`_ "whitespace" <- [ \t\r\n]+`) -/

def isWSChar (c : Char) : Bool := c == ' ' || c == '\t' || c == '\r' || c == '\n'

/-- `_*` : any run of whitespace, possibly empty. -/
def ws0 : P Unit := fun s => some ((), s.dropWhile isWSChar)

/-- `_+` : at least one whitespace character. -/
def ws1 : P Unit := fun s =>
  match s with
  | c :: cs => if isWSChar c then some ((), cs.dropWhile isWSChar) else none
  | [] => none

/-- `TermChar = '.' / [^: \t\r\n)({}"^~\\[\]*+-]` ('.' is already in the
complement class, so this is just the complement class). -/
def isTermChar (c : Char) : Bool :=
  !([':', ' ', '\t', '\r', '\n', ')', '(', '{', '}', '"', '^', '~', '\\',
     '[', ']', '*', '+', '-'].contains c)

def unquotedTermP : P String := do
  let cs ← many1A (satisfy isTermChar)
  pure (String.mk cs)

/-! ### Quoted terms: grammar plus `strconv.Unquote` (with the source's
pre-replacement of `\/` by `/`, folded into the unescaping). -/

/-- `EscapedChar <- [\x00-\x1f"\\]` — characters that must be escaped. -/
def isEscapedChar (c : Char) : Bool := c.toNat ≤ 0x1f || c == '"' || c == '\\'

/-- One quoted-string element: a plain character or a backslash escape
(`SingleCharEscape <- ["\\/bfnrt]`, `UnicodeEscape <- 'u'`), kept raw. -/
def qElemP : P (List Char) :=
  (do
    let c ← satisfy (fun c => !isEscapedChar c)
    pure [c]) <|>
  (do
    let _ ← pchar '\\'
    let e ← satisfy (fun c => ['"', '\\', '/', 'b', 'f', 'n', 'r', 't', 'u'].contains c)
    pure ['\\', e])

def hexVal (c : Char) : Option Nat :=
  let n := c.toNat
  if 48 ≤ n && n ≤ 57 then some (n - 48)
  else if 97 ≤ n && n ≤ 102 then some (n - 87)
  else if 65 ≤ n && n ≤ 70 then some (n - 55)
  else none

/-- `strconv.Unquote` on the inner text of a quoted term (the `\/`→`/`
pre-replacement makes `\/` unescape to `/`).  Lone `\u` surrogates become
the replacement character, as in Go. -/
def goUnquote : List Char → Option (List Char)
  | [] => some []
  | '\\' :: c :: rest =>
    match c with
    | '"' => (goUnquote rest).map (fun l => '"' :: l)
    | '\\' => (goUnquote rest).map (fun l => '\\' :: l)
    | '/' => (goUnquote rest).map (fun l => '/' :: l)
    | 'b' => (goUnquote rest).map (fun l => '\x08' :: l)
    | 'f' => (goUnquote rest).map (fun l => '\x0c' :: l)
    | 'n' => (goUnquote rest).map (fun l => '\n' :: l)
    | 'r' => (goUnquote rest).map (fun l => '\r' :: l)
    | 't' => (goUnquote rest).map (fun l => '\t' :: l)
    | 'u' =>
      match rest with
      | h1 :: h2 :: h3 :: h4 :: rest' =>
        match ([h1, h2, h3, h4].mapM hexVal).map
            (fun ds => ds.foldl (fun acc d => 16 * acc + d) 0) with
        | some n =>
          let ch := if h : Nat.isValidChar n then Char.ofNatAux n h else '�'
          (goUnquote rest').map (fun l => ch :: l)
        | none => none
      | _ => none
    | _ => none
  | [c] => if c == '\\' then none else (some [c])
  | c :: rest => (goUnquote rest).map (fun l => c :: l)

def quotedTermP : P String := do
  let _ ← pchar '"'
  let parts ← manyA qElemP
  let _ ← pchar '"'
  match goUnquote parts.flatten with
  | some cs => pure (String.mk cs)
  | none => failure

/-! ### Numbers, booleans, null, wildcard token -/

def digitsP : P (List Char) := many1A (satisfy Char.isDigit)

def natOfDigits (ds : List Char) : Nat :=
  ds.foldl (fun acc c => acc * 10 + (c.toNat - '0'.toNat)) 0

/-- `IntExp = '-'? [0-9]+` via `strconv.Atoi` (unbounded here). -/
def intExpP : P IVal := do
  let sgn ← optA (pchar '-')
  let ds ← digitsP
  let n : Int := Int.ofNat (natOfDigits ds)
  pure (.int (if sgn.isSome then -n else n))

/-- `DecimalExp = '-'? [0-9]+ '.' [0-9]+`, value carried as its literal. -/
def decimalExpP : P IVal := do
  let sgn ← optA (pchar '-')
  let ds ← digitsP
  let _ ← pchar '.'
  let fs ← digitsP
  pure (.dec ((if sgn.isSome then "-" else "") ++ String.mk ds ++ "." ++ String.mk fs))

def decimalOrIntP : P IVal := decimalExpP <|> intExpP

def boolLitP : P IVal :=
  (do let _ ← pstr "true"; pure (IVal.bool true)) <|>
  (do let _ ← pstr "false"; pure (IVal.bool false))

def nullLitP : P IVal := do
  let _ ← pstr "null"
  pure IVal.null

/-- `WildCard <- '*' { return "*" }` -/
def wildCardTokP : P String := do
  let _ ← pchar '*'
  pure "*"

/-! ### Operators, equality comparators, prefix operators -/

def equalityP : P String :=
  lit ">=" "gte" <|> lit ">" "gt" <|> lit "<=" "lte" <|> lit "<" "lt" <|>
  lit "!=" "neq" <|> lit "!~*" "!~*" <|> lit "!~" "!~" <|> lit "~*" "~*" <|>
  lit "~" "~" <|> lit "gte" "gte" <|> lit "gt" "gt" <|> lit "lte" "lte" <|>
  lit "lt" "lt" <|> lit "eq" "eq" <|> lit "neq" "neq"

def equalityExprP : P String := do
  ws0
  let e ← equalityP
  ws0
  pure e

def operatorP : P String :=
  lit "OR" "OR" <|> lit "AND" "AND" <|> lit "NOT" "NOT" <|> lit "||" "OR" <|>
  lit "&&" "AND" <|> lit "and" "AND" <|> lit "or" "OR" <|> lit "not" "NOT"

def operatorExpP : P String :=
  (do ws0; let o ← operatorP; ws1; pure o) <|>
  (do ws0; let o ← operatorP; eofP; pure o)

/-- `PrefixOperatorExp = _* ('+' / '-')` -/
def plusMinusOpP : P String := do
  ws0
  let c ← (pchar '+' <|> pchar '-')
  pure (String.mk [c])

/-! ### Wildcard expressions -/

def wildCardExpP : P IVal :=
  (do
    let p ← (unquotedTermP <|> quotedTermP)
    let _ ← wildCardTokP
    let s ← (unquotedTermP <|> quotedTermP)
    pure (IVal.wc p s "")) <|>
  (do
    let p ← (unquotedTermP <|> quotedTermP)
    let _ ← wildCardTokP
    pure (IVal.wc p "" "")) <|>
  (do
    let _ ← wildCardTokP
    let t ← (unquotedTermP <|> quotedTermP)
    let _ ← wildCardTokP
    pure (IVal.wc "" "" t)) <|>
  (do
    let _ ← wildCardTokP
    let t ← (unquotedTermP <|> quotedTermP)
    pure (IVal.wc "" t "")) <|>
  (do
    let _ ← wildCardTokP
    pure (IVal.wc "" "" ""))

/-! ### Terms, field names, arrays, ranges -/

/-- `Term` rule: two ordered alternatives. -/
def termP : P IVal :=
  (do
    let eq ← optA equalityExprP
    let v ← decimalOrIntP
    ws0
    pure (IVal.termQ "" "" (eq.getD "") v)) <|>
  (do
    let eq ← optA equalityExprP
    let op ← optA plusMinusOpP
    let v ← (nullLitP <|> boolLitP <|> decimalOrIntP <|> wildCardExpP <|>
             (IVal.str <$> quotedTermP) <|> (IVal.str <$> unquotedTermP))
    ws0
    pure (IVal.termQ "" (op.getD "") (eq.getD "") v))

/-- `Fieldname = (UnquotedTerm / QuotedTerm) [:]` -/
def fieldnameP : P String := do
  let f ← (unquotedTermP <|> quotedTermP)
  let _ ← pchar ':'
  pure f

/-- `ArrayValue <- (Null / Bool / DecimalOrIntExp / QuotedTerm / UnquotedTerm) _*` -/
def arrayValueP : P IVal := do
  let v ← (nullLitP <|> boolLitP <|> decimalOrIntP <|>
           (IVal.str <$> quotedTermP) <|> (IVal.str <$> unquotedTermP))
  ws0
  pure v

/-- `ArrayExp <- '[' _* (ArrayValue (',' _* ArrayValue)*)? _* ']'` -/
def arrayExpP : P (List IVal) := do
  let _ ← pchar '['
  ws0
  let vs ← optA (do
    let v0 ← arrayValueP
    let rest ← manyA (do
      let _ ← pchar ','
      ws0
      arrayValueP)
    pure (v0 :: rest))
  ws0
  let _ ← pchar ']'
  pure (vs.getD [])

def rangeBoundP : P IVal :=
  decimalOrIntP <|> (IVal.str <$> wildCardTokP) <|>
  (IVal.str <$> unquotedTermP) <|> (IVal.str <$> quotedTermP)

/-- `RangeOperatorExp`: `[ _* min _* TO _+ max ]` inclusive or
`{ min _* TO _+ max }` exclusive (whitespace exactly as in the grammar).
`Term` is filled in by the enclosing `FieldExp`. -/
def rangeOperatorExpP : P IVal :=
  (do
    let _ ← pchar '['
    ws0
    let mn ← rangeBoundP
    ws0
    let _ ← pstr "TO"
    ws1
    let mx ← rangeBoundP
    let _ ← pchar ']'
    pure (IVal.rangeQ mn mx "" true)) <|>
  (do
    let _ ← pchar '{'
    let mn ← rangeBoundP
    ws0
    let _ ← pstr "TO"
    ws1
    let mx ← rangeBoundP
    let _ ← pchar '}'
    pure (IVal.rangeQ mn mx "" false))

/-! ### AST rewrites performed during reduction -/

/-- `TermQuery.Query()`: rewrite an inequality term into a `RangeQuery`
(`gt`/`gte`/`lt`/`lte`), otherwise return the term unchanged. -/
def termQueryQuery (term pfx op : String) (value : IVal) : IVal :=
  match op with
  | "gt" => IVal.rangeQ value (IVal.str "*") term false
  | "gte" => IVal.rangeQ value (IVal.str "*") term true
  | "lt" => IVal.rangeQ (IVal.str "*") value term false
  | "lte" => IVal.rangeQ (IVal.str "*") value term true
  | _ => IVal.termQ term pfx op value

mutual
/-- `updateFieldName`: recursively set `Term` on every `TermQuery` whose
`Term` is empty; recurse through slices and `BooleanExpression` args; all
other values (in particular `RangeQuery`) are returned unchanged. -/
def updateFieldName : IVal → String → IVal
  | IVal.arr l, name => IVal.arr (updateFieldNameList l name)
  | IVal.termQ t p o v, name => IVal.termQ (if t = "" then name else t) p o v
  | IVal.boolE op args, name => IVal.boolE op (updateFieldNameList args name)
  | v, _ => v

def updateFieldNameList : List IVal → String → List IVal
  | [], _ => []
  | x :: xs, name => updateFieldName x name :: updateFieldNameList xs name
end

/-- Go `strings.TrimSpace` (ASCII white space plus the two Latin-1 space
runes; other Unicode spaces never occur in any string this code builds). -/
def isGoSpace (c : Char) : Bool :=
  c == ' ' || c == '\t' || c == '\n' || c == '\x0b' || c == '\x0c' ||
  c == '\r' || c == '\u0085' || c == ' '

def trimSpaceL (l : List Char) : List Char :=
  ((l.dropWhile isGoSpace).reverse.dropWhile isGoSpace).reverse

def trimSpace (s : String) : String := String.mk (trimSpaceL s.data)

/-- One level of slice flattening, as in the `Node` reduction's
`if l, ok := left.([]interface{})` branches. -/
def flatten1 (v : IVal) : List IVal :=
  match v with
  | IVal.arr l => l
  | v => [v]

/-! ### The recursive rules `Node`, `GroupExp`, `ParenExp`, `FieldExp`.
Fuel decreases on every transition between these rules; every cycle
through them consumes input, so `4 * length + 16` fuel (supplied by
`parseLucene`) is ample. -/

mutual
def nodeP : Nat → P IVal
  | 0 => fun _ => none
  | n + 1 =>
    (do
      let op ← operatorExpP
      eofP
      pure (IVal.boolE op [])) <|>
    (do
      let _ ← operatorExpP
      nodeP n) <|>
    (do
      let left ← groupExpP n
      let op ← optA operatorExpP
      let right ← many1A (nodeP n)
      let opStr := trimSpace (op.getD "")
      let opStr := if opStr = "" then "IMPLICIT" else opStr
      pure (IVal.boolE opStr (flatten1 left ++ right.flatMap flatten1))) <|>
    (groupExpP n)

def groupExpP : Nat → P IVal
  | 0 => fun _ => none
  | n + 1 =>
    (do
      let e ← fieldExpP n
      ws0
      pure e) <|>
    parenExpP n

def parenExpP : Nat → P IVal
  | 0 => fun _ => none
  | n + 1 => do
    let _ ← pchar '('
    let ns ← many1A (nodeP n)
    let _ ← pchar ')'
    ws0
    pure (match ns with
      | [v] => v
      | _ => IVal.arr ns)

def fieldExpP : Nat → P IVal
  | 0 => fun _ => none
  | n + 1 =>
    (do
      let f ← optA fieldnameP
      ws0
      let a ← arrayExpP
      pure (IVal.termQ (f.getD "") "" "in" (IVal.arr a))) <|>
    (do
      let f ← optA fieldnameP
      ws0
      let r ← rangeOperatorExpP
      match r with
      | IVal.rangeQ mn mx _ incl => pure (IVal.rangeQ mn mx (f.getD "") incl)
      | _ => failure) <|>
    (do
      let f ← fieldnameP
      ws0
      let node ← parenExpP n
      match node with
      | IVal.termQ _ p o v => pure (termQueryQuery f p o v)
      | v => pure (updateFieldName v f)) <|>
    (do
      let f ← optA fieldnameP
      ws0
      let t ← termP
      match t with
      | IVal.termQ _ p o v => pure (termQueryQuery (f.getD "") p o v)
      | _ => failure)
end

/-- Errors surfaced by the parser, the renderer and the mask parser. -/
inductive Err where
  | fuel : Err
  | invalidQuery : Err
  | noMatch : Err
  | invalidColumn (term : String) (msg : String) : Err
  | invalidTermValue (value : IVal) : Err
  | invalidRangeTermValue (min max : IVal) (term : String) (inclusive : Bool) : Err
  | unknownRangeType (op : String) : Err
  | unknownType : Err

/-- `lucenequery.Parse`: run `Start = _* Node+` and flatten
(`toFlatSlice`); any failure surfaces as `invalid query` (the catch-all
second and third `Start` alternatives). -/
def parseLucene (s : String) : Except Err IVal :=
  let fuel := 4 * s.length + 16
  match (do ws0; many1A (nodeP fuel)) s.data with
  | some (ns, _) =>
    .ok (match ns with
      | [v] => v
      | _ => IVal.arr ns)
  | none => .error Err.invalidQuery

/-! ## The SQL generator (`lucenequery/sql/generator.go`) -/

/-- The entries of the `operatorMappings` Go map. -/
def operatorMappingsList : List (String × String) :=
  [("eq", "="), ("gt", ">"), ("gte", ">="), ("lt", "<"), ("lte", "<="),
   ("neq", "<>"), ("~", "~"), ("~*", "~*"), ("!~", "!~"), ("!~*", "!~*"),
   ("in", "IN"), ("between", "BETWEEN"), ("IMPLICIT", "OR"), ("AND", "AND"),
   ("OR", "OR"), ("NOT", "NOT")]

/-- `operatorMappings` lookup (`none` models a missing key). -/
def operatorMappings (s : String) : Option String :=
  (operatorMappingsList.find? (fun kv => kv.1 == s)).map (fun kv => kv.2)

/-- `Fragment`: a generated sql fragment with args. -/
structure Fragment where
  Column : String
  Term : String
  Query : String
  Args : List IVal

inductive SearchMode where
  | any : SearchMode
  | all : SearchMode
deriving DecidableEq

/-- `ToSQLOptions`.  The two handlers are `nil`-able function fields in Go,
modelled as `Option`s; `ToSQL` installs the default column handler when
the field is `none` (and, as in the source, this write is visible to the
caller: `ToSQL` returns the updated options alongside the query). -/
structure ToSQLOptions where
  DefaultField : String
  SearchMode : SearchMode
  InHandler : Option (IVal → IVal)
  ColumnHandler : Option (IVal → Except String Fragment)

/-- The generated query triple. -/
structure Query where
  Query : String
  Args : List IVal
  Columns : List String

def emptyQuery : Query := { Query := "", Args := [], Columns := [] }

/-! ### The post-render regex cleanup (`cleanExpr`)

The three patterns of the `regexes` table are implemented directly with
Go `regexp` (RE2, leftmost-first, greedy) semantics:

1. `^\s*(AND|OR)\s+([^()]+)(AND|OR)` → `$2$1`, anchored, at most one
   match.  Greedy `([^()]+)` with backtracking makes group 3 the last
   `AND`/`OR` occurrence (preferring `AND`) inside the paren-free run.
   The engine's re-splitting of `\s+` into group 2 is omitted: it differs
   only on strings whose first conjunction is immediately followed by
   another conjunction, which the renderer never emits, and it moves only
   whitespace, so no theorem (in particular no `?`-count) is affected.
2. `^\s*(AND|OR)\s*([^()]+)$` → `$2`, anchored.
3. `("[^"]+").""` → `$1`, global: the pattern's bare `.` matches any
   character except newline. -/

/-- RE2's `\s` class: `[\t\n\f\r ]`. -/
def isRegexSpace (c : Char) : Bool :=
  c == '\t' || c == '\n' || c == '\x0c' || c == '\r' || c == ' '

def notParen (c : Char) : Bool := !(c == '(' || c == ')')

/-- Match `(AND|OR)` at the head of `s` (alternation order as written). -/
def opHeadOf (s : List Char) : Option (String × List Char) :=
  if List.isPrefixOf "AND".data s then some ("AND", s.drop 3)
  else if List.isPrefixOf "OR".data s then some ("OR", s.drop 2)
  else none

/-- Largest split point `k ∈ [1, bound]` of `t3` such that `t3.drop k`
starts with `AND` or `OR` (greedy group 2 of regex 1). -/
def findSplitAux (t3 : List Char) : Nat → Option (Nat × String × List Char)
  | 0 => none
  | Nat.succ k =>
    match opHeadOf (t3.drop (k + 1)) with
    | some r => some (k + 1, r.1, r.2)
    | none => findSplitAux t3 k

def regex1Apply (s : List Char) : List Char :=
  match opHeadOf (s.dropWhile isRegexSpace) with
  | none => s
  | some (op1, t2) =>
    if (t2.takeWhile isRegexSpace).isEmpty then s
    else
      match findSplitAux (t2.dropWhile isRegexSpace)
          ((t2.dropWhile isRegexSpace).takeWhile notParen).length with
      | none => s
      | some (k, _op2, rest) => (t2.dropWhile isRegexSpace).take k ++ op1.data ++ rest

def regex2Apply (s : List Char) : List Char :=
  match opHeadOf (s.dropWhile isRegexSpace) with
  | none => s
  | some (_op1, rest) =>
    if rest.isEmpty then s
    else if rest.all notParen then
      if (rest.dropWhile isRegexSpace).isEmpty then rest.drop (rest.length - 1)
      else rest.dropWhile isRegexSpace
    else s

/-- A single leftmost match of pattern 3 at the head of `s`:
`"body"` (body nonempty, quote-free), any non-newline character, `""`.
Returns the `$1` replacement and the unmatched tail. -/
def regex3Match (s : List Char) : Option (List Char × List Char) :=
  match s with
  | '"' :: cs =>
    if (cs.takeWhile (fun c => !(c == '"'))).isEmpty then none
    else
      match cs.dropWhile (fun c => !(c == '"')) with
      | '"' :: d :: '"' :: '"' :: rest =>
        if d == '\n' then none
        else some ('"' :: cs.takeWhile (fun c => !(c == '"')) ++ ['"'], rest)
      | _ => none
  | _ => none

def regex3Aux : Nat → List Char → List Char
  | 0, s => s
  | Nat.succ n, s =>
    match s with
    | [] => []
    | c :: cs =>
      match regex3Match s with
      | some (q, rest) => q ++ regex3Aux n rest
      | none => c :: regex3Aux n cs

def regex3All (s : List Char) : List Char := regex3Aux s.length s

/-- `cleanExpr`: the three regex rewrites in order, then `TrimSpace`. -/
def cleanExpr (s : String) : String :=
  String.mk (trimSpaceL (regex3All (regex2Apply (regex1Apply s.data))))

/-- The separator-suppression test `regexp.MatchString("^\\s*(AND|OR|NOT)", q)`. -/
def startsWithOpB (s : String) : Bool :=
  let t := s.data.dropWhile isRegexSpace
  List.isPrefixOf "AND".data t || List.isPrefixOf "OR".data t ||
    List.isPrefixOf "NOT".data t

/-! ### Node helpers translated from the AST structs -/

/-- `WildCardQuery.Kind()`. -/
def wcKind (p sfx t : String) : String :=
  if t ≠ "" then "any"
  else if p ≠ "" && sfx ≠ "" then "between"
  else if p ≠ "" then "prefix"
  else if sfx ≠ "" then "suffix"
  else "wildcard"

/-- `fmt.Sprintf("%v", v) == "*"` holds exactly for the string `"*"`
(every other value formats to something else). -/
def goIsStar : IVal → Bool
  | IVal.str s => s == "*"
  | _ => false

/-- `RangeQuery.HasMin` / `HasMax`: bound non-nil and not `"*"`. -/
def rangeHasBound (v : IVal) : Bool :=
  match v with
  | IVal.null => false
  | v => !(goIsStar v)

/-- `RangeQuery.Kind()` (its `error` result is always `nil` in the source,
so it is modelled as the string alone): `between` returns early, the
one-sided kinds get an `e` suffix when inclusive — as does the empty kind
of a range with no effective bounds. -/
def rangeKind (mn mx : IVal) (incl : Bool) : String :=
  if rangeHasBound mn && rangeHasBound mx then "between"
  else
    (if rangeHasBound mn then "gt" else if rangeHasBound mx then "lt" else "")
      ++ (if incl then "e" else "")

/-- The default column handler installed by `ToSQL`: identity on the
node's `Term` (message carries the source's typo). -/
def defaultColumnHandler : IVal → Except String Fragment
  | IVal.rangeQ _ _ term _ => .ok { Column := term, Term := term, Query := "", Args := [] }
  | IVal.termQ term _ _ _ => .ok { Column := term, Term := term, Query := "", Args := [] }
  | _ => .error "unknonw type"

/-- The handler actually invoked by `renderSQL`; `ToSQL` guarantees the
field is set, so the `none` branch (a nil dereference in Go) defaults. -/
def columnHandlerOf (opt : ToSQLOptions) : IVal → Except String Fragment :=
  match opt.ColumnHandler with
  | some h => h
  | none => defaultColumnHandler

/-- `term` resolution shared by the `TermQuery` and `RangeQuery` cases:
an empty handler term falls back to `DefaultField`; if that is empty too
the render fails (`none`). -/
def resolveTerm (fragTerm dfltField : String) : Option String :=
  if fragTerm = "" then
    (if dfltField ≠ "" then some dfltField else none)
  else some fragTerm

/-- The wildcard block of the `TermQuery` case: produces the query text,
the bound args and the (possibly reassigned to `LIKE`) operator; a
non-wildcard value keeps `term op ?` with the value as single argument. -/
def termStep1 (t op1 : String) (value : IVal) : String × List IVal × String :=
  match value with
  | IVal.wc wp wsfx wt =>
    match wcKind wp wsfx wt with
    | "prefix" => (t ++ " LIKE '?%'", [IVal.str wp], "LIKE")
    | "suffix" => (t ++ " LIKE '%?'", [IVal.str wsfx], "LIKE")
    | "between" => (t ++ " LIKE '?%?'", [IVal.str wp, IVal.str wsfx], "LIKE")
    | "any" => (t ++ " LIKE '%?%'", [IVal.str wt], "LIKE")
    | _ => (t ++ " IS NOT NULL", [], "LIKE")
  | _ => (t ++ " " ++ op1 ++ " ?", [value], op1)

/-- The `IN` block: rewrites the query to `term IN (?)`, replaces the
single argument through `InHandler` when present, and turns an empty
list into `1 = 0` with no args.  (The operator reaching this block is
never `IN` for a wildcard value, since the wildcard block reassigned it
to `LIKE`.) -/
def termStep2 (opt : ToSQLOptions) (t : String) (value : IVal)
    (s1 : String × List IVal × String) : String × List IVal :=
  if s1.2.2 = "IN" then
    match value with
    | IVal.arr l =>
      if l.isEmpty then ("1 = 0", [])
      else (t ++ " IN (?)",
        match opt.InHandler with
        | some h => [h value]
        | none => s1.2.1)
    | _ => (t ++ " IN (?)",
      match opt.InHandler with
      | some h => [h value]
      | none => s1.2.1)
  else (s1.1, s1.2.1)

/-- The per-term prefix-operator block: `+` prepends ` AND `, `-`
prepends ` OR NOT ` (search mode ANY) or ` AND NOT ` (ALL). -/
def termPrefixed (opt : ToSQLOptions) (pfx q : String) : String :=
  if pfx = "+" then " AND " ++ q
  else if pfx = "-" then
    (if opt.SearchMode = SearchMode.any then " OR NOT " ++ q else " AND NOT " ++ q)
  else q

/-- The `TermQuery` case of `renderSQL`, translated statement for
statement: handler, columns, fragment short-circuit, default-field
substitution, operator mapping (default `=`), then the sequential
`null` / wildcard / `IN` / prefix rewrites of the query string. -/
def renderTerm (opt : ToSQLOptions) (term pfx op : String) (value : IVal) :
    Except Err Query :=
  match columnHandlerOf opt (IVal.termQ term pfx op value) with
  | .error e => .error (Err.invalidColumn term e)
  | .ok fragment =>
    let columns := if fragment.Column ≠ "" then [fragment.Column] else []
    if fragment.Query ≠ "" then
      .ok { Query := fragment.Query, Args := fragment.Args, Columns := columns }
    else
      match resolveTerm fragment.Term opt.DefaultField with
      | none => .error (Err.invalidTermValue value)
      | some t =>
        match value with
        | IVal.null =>
          -- early return: no bound arguments, `-` flips to IS NOT NULL
          .ok { Query := if pfx = "-" then t ++ " IS NOT NULL" else t ++ " IS NULL",
                Args := [], Columns := columns }
        | _ =>
          let op1 := if op ≠ "" then (operatorMappings op).getD "=" else "="
          let s2 := termStep2 opt t value (termStep1 t op1 value)
          .ok { Query := termPrefixed opt pfx s2.1, Args := s2.2, Columns := columns }

/-- The `RangeQuery` case of `renderSQL` (`Kind()`'s error result is
always nil in the source, so that check is vacuous). -/
def renderRange (opt : ToSQLOptions) (mn mx : IVal) (term : String) (incl : Bool) :
    Except Err Query :=
  let op := rangeKind mn mx incl
  match columnHandlerOf opt (IVal.rangeQ mn mx term incl) with
  | .error e => .error (Err.invalidColumn term e)
  | .ok fragment =>
    let columns := if fragment.Column ≠ "" then [fragment.Column] else []
    if fragment.Query ≠ "" then
      .ok { Query := fragment.Query, Args := fragment.Args, Columns := columns }
    else
      match resolveTerm fragment.Term opt.DefaultField with
      | none => .error (Err.invalidRangeTermValue mn mx term incl)
      | some t =>
        if op = "gt" ∨ op = "gte" then
          .ok { Query := t ++ " " ++ (operatorMappings op).getD "" ++ " ?",
                Args := [mn], Columns := columns }
        else if op = "lt" ∨ op = "lte" then
          .ok { Query := t ++ " " ++ (operatorMappings op).getD "" ++ " ?",
                Args := [mx], Columns := columns }
        else if op = "between" then
          if incl then
            .ok { Query := t ++ " " ++ (operatorMappings op).getD "" ++ " ? and ?",
                  Args := [mn, mx], Columns := columns }
          else
            .ok { Query := t ++ " > ? and " ++ t ++ " < ?",
                  Args := [mn, mx], Columns := columns }
        else .error (Err.unknownRangeType op)

/-- The per-`Boolean` operator, computed as in the loop body (the Go code
recomputes the same value at each iteration). -/
def boolOpFor (bop : String) (opt : ToSQLOptions) : String :=
  let op := (operatorMappings bop).getD ""
  let op := if bop = "IMPLICIT" ∧ opt.SearchMode = SearchMode.all then "AND" else op
  let op := if op = "" then "OR" else op
  if op = "NOT" then
    (if opt.SearchMode = SearchMode.any then "OR NOT" else "AND NOT")
  else op

/-- The `[]interface{}` loop of `renderSQL`: concatenate the children's
SQL, args and columns.  The column-dedup `cache` map is created empty and
— as in the source — never written, so its membership test never filters
anything. -/
def renderFold (rec : IVal → Except Err Query) : List IVal → Query → Except Err Query
  | [], acc => .ok acc
  | r :: rs, acc =>
    match rec r with
    | .error e => .error e
    | .ok q =>
      let cache : List String := []
      renderFold rec rs
        { Query := acc.Query ++ q.Query,
          Args := acc.Args ++ q.Args,
          Columns := acc.Columns ++ q.Columns.filter (fun t => !(cache.contains t)) }

/-- The `BooleanExpression` loop of `renderSQL`: like `renderFold` but a
` op ` separator is inserted before every child after the first whose
rendered text does not already begin with `AND`/`OR`/`NOT`. -/
def renderJoin (rec : IVal → Except Err Query) (op : String) :
    List IVal → Bool → Query → Except Err Query
  | [], _, acc => .ok acc
  | r :: rs, isFirst, acc =>
    match rec r with
    | .error e => .error e
    | .ok q =>
      let sep := if !isFirst && !(startsWithOpB q.Query) then " " ++ op ++ " " else ""
      let cache : List String := []
      renderJoin rec op rs false
        { Query := acc.Query ++ sep ++ q.Query,
          Args := acc.Args ++ q.Args,
          Columns := acc.Columns ++ q.Columns.filter (fun t => !(cache.contains t)) }

/-- `renderSQL`.  The Go function recurses without bound through slices,
booleans and (via `lucenequery.Parse`) strings; here every recursive call
spends one unit of fuel and `ToSQL` supplies a budget that dominates the
recursion depth of any input (`Err.fuel` is unreachable from `ToSQL`). -/
def renderSQL : Nat → IVal → ToSQLOptions → Except Err Query
  | 0, _, _ => .error Err.fuel
  | Nat.succ n, filter, opt =>
    match filter with
    | IVal.arr v =>
      match renderFold (fun r => renderSQL n r opt) v emptyQuery with
      | .error e => .error e
      | .ok q => .ok { q with Query := cleanExpr q.Query }
    | IVal.str s =>
      match parseLucene s with
      | .error e => .error e
      | .ok dsl => renderSQL n dsl opt
    | IVal.boolE bop args =>
      match renderJoin (fun r => renderSQL n r opt) (boolOpFor bop opt) args true emptyQuery with
      | .error e => .error e
      | .ok q => .ok { q with Query := "(" ++ trimSpace (cleanExpr q.Query) ++ ")" }
    | IVal.termQ term pfx op value => renderTerm opt term pfx op value
    | IVal.rangeQ mn mx term incl => renderRange opt mn mx term incl
    | _ => .error Err.unknownType

mutual
/-- Fuel budget for `renderSQL`: dominates the recursion depth (each
nesting level of a parsed AST consumes source characters, so
`4·length + 24` covers the recursion into a parsed string filter). -/
def ivalFuel : IVal → Nat
  | IVal.str s => 4 * s.length + 24
  | IVal.arr l => ivalFuelList l + 1
  | IVal.boolE _ l => ivalFuelList l + 1
  | _ => 2

def ivalFuelList : List IVal → Nat
  | [] => 1
  | x :: xs => ivalFuel x + ivalFuelList xs
end

/-- `ToSQL`: install the default column handler when the caller supplied
none — this writes through the caller's options pointer in the source, so
the (possibly updated) options are returned alongside the result — then
render and apply `cleanExpr`.  (On error Go also returns the partially
built query for diagnostics; `Except` keeps just the error.) -/
def ToSQL (filter : IVal) (opt : ToSQLOptions) : (Except Err Query) × ToSQLOptions :=
  let opt := if opt.ColumnHandler.isNone then
    { opt with ColumnHandler := some defaultColumnHandler } else opt
  match renderSQL (ivalFuel filter) filter opt with
  | .error e => (.error e, opt)
  | .ok q => (.ok { q with Query := cleanExpr q.Query }, opt)

/-! ## The field-mask parser (`fieldmask` grammar) -/

/-- The `mask` interface: `termMask`, `termGroup`, `termArray`. -/
inductive Mask where
  | termM (name : List String) : Mask
  | groupM (name : List String) (masks : List Mask) : Mask
  | arrM (masks : List Mask) : Mask

mutual
/-- `paths()`: a term yields its own path; a group prepends its name to
every path beneath it; an array concatenates in order. -/
def Mask.paths : Mask → List (List String)
  | Mask.termM n => [n]
  | Mask.groupM n ms => Mask.pathsUnder n ms
  | Mask.arrM ms => Mask.pathsList ms

def Mask.pathsUnder (n : List String) : List Mask → List (List String)
  | [] => []
  | m :: ms => (Mask.paths m).map (fun p => n ++ p) ++ Mask.pathsUnder n ms

def Mask.pathsList : List Mask → List (List String)
  | [] => []
  | m :: ms => Mask.paths m ++ Mask.pathsList ms
end

/-- `strings.Replace(s, " ", "", -1)` — strip every space (only `' '`). -/
def stripSpaces (s : String) : String :=
  String.mk (s.data.filter (fun c => !(c == ' ')))

/-- `Identifier = [^: \t\r\n)(/,]+` -/
def identifierFmP : P String := do
  let cs ← many1A (satisfy (fun c =>
    !([':', ' ', '\t', '\r', '\n', ')', '(', '/', ','].contains c)))
  pure (String.mk cs)

/-- `TermPath = QuotedTerm / Identifier / WildCard` (the `WildCard`
alternative is unreachable — `Identifier` accepts `*` — but kept). -/
def termPathFmP : P String :=
  quotedTermP <|> identifierFmP <|> (do let _ ← pchar '*'; pure "*")

/-- The `Path` reduction: the leading segment is taken verbatim
(`toIfaceStr(id)`, NOT space-stripped), the following segments are
space-stripped. -/
def pathAction (id : String) (vals : List String) : List String :=
  id :: vals.map stripSpaces

/-- `Path = TermPath _ ('/' _ TermPath _)+` -/
def pathFmP : P (List String) := do
  let id ← termPathFmP
  ws0
  let vals ← many1A (do
    let _ ← pchar '/'
    ws0
    let t ← termPathFmP
    ws0
    pure t)
  pure (pathAction id vals)

/-- The `Term` reduction: every segment (including the head) is
space-stripped. -/
def termFmAction (id : String) (vals : List String) : Mask :=
  Mask.termM (stripSpaces id :: vals.map stripSpaces)

/-- `Term = _ (QuotedTerm / Identifier) _ ('/' _ TermPath _)*` -/
def termFmP : P Mask := do
  ws0
  let id ← (quotedTermP <|> identifierFmP)
  ws0
  let vals ← manyA (do
    let _ ← pchar '/'
    ws0
    let t ← termPathFmP
    ws0
    pure t)
  pure (termFmAction id vals)

/-- The `TermGroup` key `(Path / QuotedTerm / Identifier)`: a path is used
as is; a quoted term or identifier becomes a one-segment name, taken
verbatim (NOT space-stripped). -/
def groupKeyP : P (List String) :=
  pathFmP <|> ((fun k => [k]) <$> (quotedTermP <|> identifierFmP))

mutual
/-- `TermGroup = _ key _ '(' _ (TermArray / TermValue) _ ')'` -/
def termGroupP : Nat → P Mask
  | 0 => fun _ => none
  | n + 1 => do
    ws0
    let key ← groupKeyP
    ws0
    let _ ← pchar '('
    ws0
    let vals ← (termArrayP n <|> termValueP n)
    ws0
    let _ ← pchar ')'
    pure (Mask.groupM key [vals])

/-- `TermValue = TermGroup / Term` -/
def termValueP : Nat → P Mask
  | 0 => fun _ => none
  | n + 1 => termGroupP n <|> termFmP

/-- `TermArray = TermValue _ (',' _ TermValue)+` -/
def termArrayP : Nat → P Mask
  | 0 => fun _ => none
  | n + 1 => do
    let v0 ← termValueP n
    ws0
    let rest ← many1A (do
      let _ ← pchar ','
      ws0
      termValueP n)
    pure (Mask.arrM (v0 :: rest))
end

/-- `fieldmask.Masks`: `Masks = Value EOF` with `Value = (TermArray /
TermValue) _`, then `paths()` over the mask tree. -/
def parseMasks (s : String) : Except Err (List (List String)) :=
  let fuel := 4 * s.length + 16
  match (do
      let v ← (termArrayP fuel <|> termValueP fuel)
      ws0
      eofP
      pure v) s.data with
  | some (m, _) => .ok m.paths
  | none => .error Err.noMatch

/-! ## Counting infrastructure for the placeholder/argument invariant -/

/-- Number of `?` characters in a generated SQL string (the claim counts
every `?`, including those inside `LIKE '…'` literals). -/
def placeholderCount (s : String) : Nat := s.data.count '?'

/-- A string is *clean* when it contains neither `?` nor `"` (true of
every value in the operator-mapping table). -/
def cleanStr (t : String) : Bool :=
  (t.data.count '?' == 0) && (t.data.count '"' == 0)

/-- A name is placeholder-free: it does not contain the `?` character.
This is the only restriction the placeholder/argument count invariant
needs on field names. -/
def qmFree (t : String) : Bool := t.data.count '?' == 0

/-- The predicate under which the placeholder/argument count invariant is
provable: every `Term`/`Range` field name reachable from the filter
(through slices, booleans, and parses of string filters) is free of `?`.
The fuel mirrors `renderSQL`'s. -/
def qmFreeFilter : Nat → IVal → Bool
  | 0, _ => true
  | n + 1, v =>
    match v with
    | IVal.termQ t _ _ _ => qmFree t
    | IVal.rangeQ _ _ t _ => qmFree t
    | IVal.boolE _ args => args.all (qmFreeFilter n)
    | IVal.arr l => l.all (qmFreeFilter n)
    | IVal.str s =>
      match parseLucene s with
      | .ok dsl => qmFreeFilter n dsl
      | .error _ => true
    | _ => true

/-- *No placeholder after a quote*, scanning with the previous character
as state: `noQQFrom p l` holds when no `?` in `l` is immediately preceded
by a `"` (with `p` standing for the character just before `l`).  Every
`?` the renderer emits is preceded by a space, `(`, `'` or `%` — never by
`"` — and rewrite 3 deletes exactly one character that sits right after a
closing `"`, so this is the invariant that keeps `?` counts stable. -/
def noQQFrom (p : Char) : List Char → Bool
  | [] => true
  | c :: cs => (!(p == '"') || !(c == '?')) && noQQFrom c cs

def noQQ (l : List Char) : Bool := noQQFrom ' ' l

/-- The last character of `l` that is not Go whitespace, if any. -/
def lastNW (l : List Char) : Option Char := (l.reverse.dropWhile isGoSpace).head?

/-- The last non-whitespace character is not a `"` (so that appending
another fragment can never create a `"?` adjacency across `TrimSpace`d
boundaries). -/
def lastNQ (l : List Char) : Bool := !(lastNW l == some '"')

/-- The placeholder/argument invariant for a rendered leaf string: `?`
count equals the argument count, no `?` sits after a `"` (for any
preceding context character), and the string ends in a known non-quote
character. -/
def LeafInv (str : String) (args : List IVal) : Prop :=
  str.data.count '?' = args.length ∧
  (∀ p, noQQFrom p str.data = true) ∧
  (∃ c, lastNW str.data = some c ∧ (c == '"') = false)

/-! ## Shared concrete option records for the claim theorems -/

/-- Options as a caller would pass them: no handlers installed. -/
def optNone : ToSQLOptions :=
  { DefaultField := "", SearchMode := SearchMode.any,
    InHandler := none, ColumnHandler := none }

/-- Options as `renderSQL` receives them from `ToSQL`: the default column
handler installed. -/
def optRender : ToSQLOptions :=
  { DefaultField := "", SearchMode := SearchMode.any,
    InHandler := none, ColumnHandler := some defaultColumnHandler }

mutual
/-- The `Term` field of every `RangeQuery` in a value, in order —
`updateFieldName` must not touch these. -/
def rangeTermsOf : IVal → List String
  | IVal.arr l => rangeTermsOfList l
  | IVal.boolE _ l => rangeTermsOfList l
  | IVal.rangeQ _ _ t _ => [t]
  | _ => []

def rangeTermsOfList : List IVal → List String
  | [] => []
  | x :: xs => rangeTermsOf x ++ rangeTermsOfList xs
end

/-! ## Lemmas -/

theorem count_eq_zero_of_all_ne {l : List Char} {c : Char}
    (h : ∀ x ∈ l, x ≠ c) : l.count c = 0 :=
  List.count_eq_zero.mpr (fun hc => (h c hc) rfl)

theorem count_takeWhile_space {l : List Char} {c : Char} {p : Char → Bool}
    (hc : p c = false) : (l.takeWhile p).count c = 0 :=
  count_eq_zero_of_all_ne (fun x hx hxc => by
    have := List.mem_takeWhile_imp hx
    rw [hxc] at this
    simp [hc] at this)

theorem count_split_while (l : List Char) (p : Char → Bool) {c : Char}
    (hc : p c = false) : l.count c = (l.dropWhile p).count c := by
  conv_lhs => rw [← List.takeWhile_append_dropWhile (p := p) (l := l)]
  rw [List.count_append, count_takeWhile_space hc, Nat.zero_add]

theorem isPrefixOf_decomp {p l : List Char} (h : List.isPrefixOf p l = true) :
    l = p ++ l.drop p.length := by
  have hp : p <+: l := List.isPrefixOf_iff_prefix.mp h
  obtain ⟨t, rfl⟩ := hp
  rw [List.drop_left]

theorem opHeadOf_spec {l : List Char} {o : String} {r : List Char}
    (h : opHeadOf l = some (o, r)) :
    l = o.data ++ r ∧ (o = "AND" ∨ o = "OR") := by
  unfold opHeadOf at h
  split at h
  · rename_i hp
    injection h with h'
    injection h' with h1 h2
    subst h1; subst h2
    exact ⟨isPrefixOf_decomp hp, Or.inl rfl⟩
  · split at h
    · rename_i hp
      injection h with h'
      injection h' with h1 h2
      subst h1; subst h2
      exact ⟨isPrefixOf_decomp hp, Or.inr rfl⟩
    · exact absurd h (by simp)

theorem findSplitAux_spec {t3 : List Char} {o : String} {r : List Char} :
    ∀ {b k : Nat}, findSplitAux t3 b = some (k, o, r) →
      t3 = t3.take k ++ o.data ++ r ∧ (o = "AND" ∨ o = "OR") := by
  intro b
  induction b with
  | zero => intro k h; exact absurd h (by simp [findSplitAux])
  | succ n ih =>
    intro k h
    unfold findSplitAux at h
    split at h
    · rename_i val heq
      obtain ⟨o1, r1⟩ := val
      simp only [Option.some.injEq, Prod.mk.injEq] at h
      obtain ⟨hk, ho, hr⟩ := h
      subst hk; subst ho; subst hr
      obtain ⟨hdec, hor⟩ := opHeadOf_spec heq
      refine ⟨?_, hor⟩
      conv_lhs => rw [← List.take_append_drop (n + 1) t3]
      rw [hdec, List.append_assoc]
    · exact ih h

/-- A character that is not whitespace and does not occur in `AND`/`OR`
is preserved, occurrence for occurrence, by regex rewrite 1. -/
theorem count_regex1 (s : List Char) {c : Char}
    (hsp : isRegexSpace c = false)
    (hA : ("AND".data.count c = 0)) (hO : ("OR".data.count c = 0)) :
    (regex1Apply s).count c = s.count c := by
  unfold regex1Apply
  split
  · rfl
  · rename_i op1 t2 hop
    split
    · rfl
    · split
      · rfl
      · rename_i k op2 rest hsplit
        obtain ⟨hdec1, hor1⟩ := opHeadOf_spec hop
        obtain ⟨hdec3, hor3⟩ := findSplitAux_spec hsplit
        have hcount_op1 : op1.data.count c = 0 := by
          rcases hor1 with h | h <;> (subst h; assumption)
        have hcount_op2 : op2.data.count c = 0 := by
          rcases hor3 with h | h <;> (subst h; assumption)
        have hs : s.count c = (s.dropWhile isRegexSpace).count c :=
          count_split_while s isRegexSpace hsp
        have ht2 : t2.count c = (t2.dropWhile isRegexSpace).count c :=
          count_split_while t2 isRegexSpace hsp
        calc ((t2.dropWhile isRegexSpace).take k ++ op1.data ++ rest).count c
            = ((t2.dropWhile isRegexSpace).take k).count c + op1.data.count c
              + rest.count c := by simp [List.count_append, Nat.add_assoc]
          _ = ((t2.dropWhile isRegexSpace).take k).count c + op2.data.count c
              + rest.count c := by rw [hcount_op1, hcount_op2]
          _ = ((t2.dropWhile isRegexSpace).take k ++ op2.data ++ rest).count c := by
              simp [List.count_append, Nat.add_assoc]
          _ = (t2.dropWhile isRegexSpace).count c := by rw [← hdec3]
          _ = t2.count c := ht2.symm
          _ = (op1.data ++ t2).count c := by
              simp [List.count_append, hcount_op1]
          _ = (s.dropWhile isRegexSpace).count c := by rw [← hdec1]
          _ = s.count c := hs.symm

/-- The same for regex rewrite 2. -/
theorem count_regex2 (s : List Char) {c : Char}
    (hsp : isRegexSpace c = false)
    (hA : ("AND".data.count c = 0)) (hO : ("OR".data.count c = 0)) :
    (regex2Apply s).count c = s.count c := by
  unfold regex2Apply
  split
  · rfl
  · rename_i op1 rest hop
    obtain ⟨hdec1, hor1⟩ := opHeadOf_spec hop
    have hcount_op1 : op1.data.count c = 0 := by
      rcases hor1 with h | h <;> (subst h; assumption)
    have hrest : s.count c = rest.count c := by
      rw [count_split_while s isRegexSpace hsp, hdec1, List.count_append,
        hcount_op1, Nat.zero_add]
    split
    · rfl
    · split
      · split
        · rename_i hnp hd
          have hall : ∀ x ∈ rest, isRegexSpace x = true :=
            List.dropWhile_eq_nil_iff.mp (by
              rename_i hde
              exact List.isEmpty_iff.mp (by assumption))
          have hzero : rest.count c = 0 := count_eq_zero_of_all_ne
            (fun x hx hxc => by
              have := hall x hx
              rw [hxc, hsp] at this
              exact absurd this (by simp))
          have hle : (rest.drop (rest.length - 1)).count c ≤ rest.count c :=
            (List.drop_sublist _ _).count_le c
          omega
        · rw [hrest, count_split_while rest isRegexSpace hsp]
      · rfl

/-- Rewrite 3 can only fire on a string containing a `"`. -/
theorem regex3Match_eq_none {s : List Char} (h : ¬ '"' ∈ s) :
    regex3Match s = none := by
  cases s with
  | nil => rfl
  | cons c cs =>
    have hc : c ≠ '"' := fun hcq => h (by simp [hcq])
    unfold regex3Match
    split
    · rename_i heq
      injection heq with h1 _
      exact absurd h1 hc
    · rfl

theorem regex3Aux_id : ∀ (n : Nat) (s : List Char), ¬ '"' ∈ s →
    regex3Aux n s = s := by
  intro n
  induction n with
  | zero => intro s _; rfl
  | succ m ih =>
    intro s hq
    cases s with
    | nil => rfl
    | cons c cs =>
      have hm : regex3Match (c :: cs) = none := regex3Match_eq_none hq
      have hcs : regex3Aux m cs = cs :=
        ih cs (fun hmem => hq (List.mem_cons_of_mem c hmem))
      simp [regex3Aux, hm, hcs]

/-- `TrimSpace` preserves every non-space character. -/
theorem count_trimSpaceL (l : List Char) {c : Char} (hc : isGoSpace c = false) :
    (trimSpaceL l).count c = l.count c := by
  unfold trimSpaceL
  rw [List.count_reverse, ← count_split_while _ isGoSpace hc,
    List.count_reverse, ← count_split_while _ isGoSpace hc]

theorem dropWhile_append_split (p : Char → Bool) (a b : List Char) :
    (a ++ b).dropWhile p =
      if (a.dropWhile p).isEmpty then b.dropWhile p else a.dropWhile p ++ b := by
  induction a with
  | nil => simp
  | cons c cs ih =>
    by_cases h : p c <;> simp [List.dropWhile_cons, h, ih]

theorem dropWhile_idem (p : Char → Bool) (l : List Char) :
    (l.dropWhile p).dropWhile p = l.dropWhile p := by
  induction l with
  | nil => rfl
  | cons c cs ih =>
    by_cases h : p c <;> simp [List.dropWhile_cons, h, ih]

theorem getLastD_snoc : ∀ (l : List Char) (c d : Char), (l ++ [c]).getLastD d = c := by
  intro l
  induction l with
  | nil => intro c d; rfl
  | cons x xs ih =>
    intro c d
    rw [List.cons_append, List.getLastD_cons, ih]

theorem andE1 {a b : Bool} (h : (a && b) = true) : a = true := by
  cases a
  · simp at h
  · rfl

theorem andE2 {a b : Bool} (h : (a && b) = true) : b = true := by
  cases a
  · simp at h
  · simpa using h

theorem andI {a b : Bool} (ha : a = true) (hb : b = true) : (a && b) = true := by
  rw [ha, hb]
  rfl

theorem noQQFrom_append (p : Char) (a b : List Char) :
    noQQFrom p (a ++ b) = (noQQFrom p a && noQQFrom (a.getLastD p) b) := by
  induction a generalizing p with
  | nil => simp [noQQFrom]
  | cons c cs ih =>
    rw [List.cons_append]
    show ((!(p == '"') || !(c == '?')) && noQQFrom c (cs ++ b)) = _
    rw [ih c, List.getLastD_cons]
    show _ = ((!(p == '"') || !(c == '?')) && noQQFrom c cs && noQQFrom (cs.getLastD c) b)
    rw [Bool.and_assoc]

theorem noQQ_of_from {p : Char} {l : List Char} (h : noQQFrom p l = true) :
    noQQ l = true := by
  cases l with
  | nil => rfl
  | cons c cs =>
    have h2 : noQQFrom c cs = true := andE2 h
    show (( !((' ' : Char) == '"') || !(c == '?')) && noQQFrom c cs) = true
    rw [h2]
    simp

theorem noQQFrom_of_ne_quote {p : Char} {l : List Char}
    (hp : (p == '"') = false) (h : noQQ l = true) : noQQFrom p l = true := by
  cases l with
  | nil => rfl
  | cons c cs =>
    have h0 : ((!((' ' : Char) == '"') || !(c == '?')) && noQQFrom c cs) = true := h
    have h2 : noQQFrom c cs = true := andE2 h0
    show ((!(p == '"') || !(c == '?')) && noQQFrom c cs) = true
    rw [hp, h2]
    simp

theorem noQQFrom_any {l : List Char} (h : noQQFrom '"' l = true) (p : Char) :
    noQQFrom p l = true := by
  cases l with
  | nil => rfl
  | cons c cs =>
    have hc : (!(c == '?')) = true := by
      have := andE1 h
      simpa using this
    show ((!(p == '"') || !(c == '?')) && noQQFrom c cs) = true
    rw [hc, andE2 h]
    simp

theorem noQQFrom_of_no_qm {l : List Char} (h : l.count '?' = 0) (p : Char) :
    noQQFrom p l = true := by
  induction l generalizing p with
  | nil => rfl
  | cons c cs ih =>
    rw [List.count_cons] at h
    have hc : (c == '?') = false := by
      by_cases hcq : c = '?'
      · subst hcq; simp at h
      · simp [hcq]
    show ((!(p == '"') || !(c == '?')) && noQQFrom c cs) = true
    rw [hc, ih (by omega) c]
    simp

theorem noQQ_of_no_qm {l : List Char} (h : l.count '?' = 0) : noQQ l = true :=
  noQQFrom_of_no_qm h ' '

theorem noQQ_append_left {a b : List Char} (h : noQQ (a ++ b) = true) :
    noQQ a = true := by
  unfold noQQ at h
  rw [noQQFrom_append] at h
  exact andE1 h

theorem noQQ_append_right {a b : List Char} (h : noQQ (a ++ b) = true) :
    noQQ b = true := by
  unfold noQQ at h
  rw [noQQFrom_append] at h
  exact noQQ_of_from (andE2 h)

theorem noQQ_dropWhile (p : Char → Bool) {l : List Char} (h : noQQ l = true) :
    noQQ (l.dropWhile p) = true := by
  refine noQQ_append_right (a := l.takeWhile p) ?_
  rw [List.takeWhile_append_dropWhile]
  exact h

theorem noQQ_drop (n : Nat) {l : List Char} (h : noQQ l = true) :
    noQQ (l.drop n) = true := by
  refine noQQ_append_right (a := l.take n) ?_
  rw [List.take_append_drop]
  exact h

theorem noQQ_trim {l : List Char} (h : noQQ l = true) :
    noQQ (trimSpaceL l) = true := by
  have hX : noQQ (l.dropWhile isGoSpace) = true := noQQ_dropWhile _ h
  have hdecomp : l.dropWhile isGoSpace =
      trimSpaceL l ++ ((l.dropWhile isGoSpace).reverse.takeWhile isGoSpace).reverse := by
    conv_lhs => rw [← List.reverse_reverse (l.dropWhile isGoSpace)]
    conv_lhs =>
      rw [← List.takeWhile_append_dropWhile (p := isGoSpace)
        (l := (l.dropWhile isGoSpace).reverse)]
    rw [List.reverse_append]
    rfl
  rw [hdecomp] at hX
  exact noQQ_append_left hX

theorem noQQFrom_concat_lit {A B : List Char} (hA : A.count '?' = 0)
    (hB : noQQFrom '"' B = true) (p : Char) : noQQFrom p (A ++ B) = true := by
  rw [noQQFrom_append]
  exact andI (noQQFrom_of_no_qm hA p) (noQQFrom_any hB _)

theorem lastNW_append_some {b : List Char} {c : Char} (h : lastNW b = some c)
    (a : List Char) : lastNW (a ++ b) = some c := by
  unfold lastNW at h ⊢
  rw [List.reverse_append, dropWhile_append_split]
  cases hd : b.reverse.dropWhile isGoSpace with
  | nil => rw [hd] at h; exact absurd h (by simp)
  | cons x t =>
    rw [hd] at h
    have hx : x = c := by simpa using h
    subst hx
    simp

theorem lastNW_append_none {b : List Char} (h : lastNW b = none)
    (a : List Char) : lastNW (a ++ b) = lastNW a := by
  unfold lastNW at h ⊢
  rw [List.reverse_append, dropWhile_append_split]
  cases hd : b.reverse.dropWhile isGoSpace with
  | nil => simp
  | cons x t => rw [hd] at h; simp at h

theorem lastNW_snoc {c : Char} (h : isGoSpace c = false) (a : List Char) :
    lastNW (a ++ [c]) = some c := by
  refine lastNW_append_some ?_ a
  unfold lastNW
  simp [List.dropWhile_cons, h]

theorem lastNQ_of_some {l : List Char} {c : Char} (h : lastNW l = some c)
    (hc : (c == '"') = false) : lastNQ l = true := by
  unfold lastNQ
  rw [h]
  show (!(c == '"')) = true
  rw [hc]
  rfl

theorem lastNQ_append_right {a b : List Char} (h : lastNQ (a ++ b) = true) :
    lastNQ b = true := by
  cases hb : lastNW b with
  | none => simp [lastNQ, hb]
  | some c =>
    have := lastNW_append_some hb a
    unfold lastNQ at h ⊢
    rw [this] at h
    rw [hb]
    exact h

theorem lastNQ_append {a b : List Char} (ha : lastNQ a = true)
    (hb : lastNQ b = true) : lastNQ (a ++ b) = true := by
  cases hcb : lastNW b with
  | none => unfold lastNQ; rw [lastNW_append_none hcb]; exact ha
  | some c =>
    unfold lastNQ at hb ⊢
    rw [lastNW_append_some hcb]
    rw [hcb] at hb
    exact hb

theorem lastNQ_of_no_quote {l : List Char} (h : l.count '"' = 0) :
    lastNQ l = true := by
  cases hl : lastNW l with
  | none => simp [lastNQ, hl]
  | some c =>
    unfold lastNW at hl
    have hmem : c ∈ l := by
      cases hd : l.reverse.dropWhile isGoSpace with
      | nil => rw [hd] at hl; simp at hl
      | cons x t =>
        rw [hd] at hl
        have hx : x = c := by simpa using hl
        subst hx
        have hsub : x ∈ l.reverse := by
          have hs : (l.reverse.dropWhile isGoSpace).Sublist l.reverse :=
            List.dropWhile_sublist _
          exact hs.mem (by rw [hd]; exact List.mem_cons_self x t)
        exact List.mem_reverse.mp hsub
    have hne : c ≠ '"' := by
      intro hc
      subst hc
      have := List.count_eq_zero.mp h
      exact this hmem
    unfold lastNQ
    unfold lastNW
    rw [hl]
    simp [hne]

theorem lastNQ_drop (n : Nat) {l : List Char} (h : lastNQ l = true) :
    lastNQ (l.drop n) = true := by
  refine lastNQ_append_right (a := l.take n) ?_
  rw [List.take_append_drop]
  exact h

theorem lastNQ_dropWhile (p : Char → Bool) {l : List Char} (h : lastNQ l = true) :
    lastNQ (l.dropWhile p) = true := by
  refine lastNQ_append_right (a := l.takeWhile p) ?_
  rw [List.takeWhile_append_dropWhile]
  exact h

theorem lastNQ_trim {l : List Char} (h : lastNQ l = true) :
    lastNQ (trimSpaceL l) = true := by
  have heq : lastNW (trimSpaceL l) = lastNW (l.dropWhile isGoSpace) := by
    show (((((l.dropWhile isGoSpace).reverse.dropWhile isGoSpace).reverse).reverse).dropWhile isGoSpace).head? = _
    rw [List.reverse_reverse, dropWhile_idem]
    rfl
  unfold lastNQ
  rw [heq]
  exact lastNQ_dropWhile isGoSpace h

theorem getLastD_ne_quote {l : List Char} (h : lastNQ l = true) :
    ((l.getLastD ' ') == '"') = false := by
  cases hr : l.reverse with
  | nil =>
    have : l = [] := by
      have := congrArg List.reverse hr
      simpa using this
    subst this
    rfl
  | cons c t =>
    have hl : l = t.reverse ++ [c] := by
      have := congrArg List.reverse hr
      simpa using this
    rw [hl, getLastD_snoc]
    by_cases hws : isGoSpace c = true
    · have : c ≠ '"' := by
        intro hc; subst hc; exact absurd hws (by decide)
      simpa using this
    · have hws' : isGoSpace c = false := by
        revert hws
        cases isGoSpace c <;> simp
      have hnw : lastNW l = some c := by
        unfold lastNW
        rw [hr]
        simp [List.dropWhile_cons, hws']
      unfold lastNQ at h
      rw [hnw] at h
      simpa using h

theorem noQQ_concat {a b : List Char} (ha : noQQ a = true) (hla : lastNQ a = true)
    (hb : noQQ b = true) : noQQ (a ++ b) = true := by
  unfold noQQ
  rw [noQQFrom_append]
  exact andI ha (noQQFrom_of_ne_quote (getLastD_ne_quote hla) hb)

/-- Rewrite 1 preserves both invariants: the moved `AND`/`OR` ends in a
letter, never in a quote, and the text after the deleted second operator
cannot begin with `?` (it followed a letter). -/
theorem regex1_inv {s : List Char} (h1 : noQQ s = true) (h2 : lastNQ s = true) :
    noQQ (regex1Apply s) = true ∧ lastNQ (regex1Apply s) = true := by
  unfold regex1Apply
  split
  · exact ⟨h1, h2⟩
  · rename_i op1 t2 hop
    split
    · exact ⟨h1, h2⟩
    · split
      · exact ⟨h1, h2⟩
      · rename_i k op2 rest hsplit
        obtain ⟨hdec1, hor1⟩ := opHeadOf_spec hop
        obtain ⟨hdec3, hor3⟩ := findSplitAux_spec hsplit
        have hs : s = s.takeWhile isRegexSpace ++ (op1.data ++ t2) := by
          conv_lhs => rw [← List.takeWhile_append_dropWhile (p := isRegexSpace) (l := s)]
          rw [hdec1]
        have hq0 : noQQ (s.takeWhile isRegexSpace ++ (op1.data ++ t2)) = true := by
          rw [← hs]; exact h1
        have hqt2 : noQQ t2 = true := noQQ_append_right (noQQ_append_right hq0)
        have hqt3 : noQQ (t2.dropWhile isRegexSpace) = true := noQQ_dropWhile _ hqt2
        have hq4 : noQQ ((t2.dropWhile isRegexSpace).take k ++ op2.data ++ rest) = true := by
          rw [← hdec3]; exact hqt3
        have hqtake : noQQ ((t2.dropWhile isRegexSpace).take k) = true :=
          noQQ_append_left (noQQ_append_left hq4)
        have hqrest : noQQ rest = true := noQQ_append_right hq4
        have hl0 : lastNQ (s.takeWhile isRegexSpace ++ (op1.data ++ t2)) = true := by
          rw [← hs]; exact h2
        have hlt2 : lastNQ t2 = true := lastNQ_append_right (lastNQ_append_right hl0)
        have hlt3 : lastNQ (t2.dropWhile isRegexSpace) = true := lastNQ_dropWhile _ hlt2
        have hl4 : lastNQ ((t2.dropWhile isRegexSpace).take k ++ op2.data ++ rest) = true := by
          rw [← hdec3]; exact hlt3
        have hlrest : lastNQ rest = true := lastNQ_append_right hl4
        constructor
        · unfold noQQ
          rw [noQQFrom_append]
          apply andI
          · rw [noQQFrom_append]
            apply andI
            · exact hqtake
            · rcases hor1 with h | h <;> subst h <;> exact noQQFrom_any (by decide) _
          · rcases hor1 with h | h <;> subst h
            · have hgl : (((t2.dropWhile isRegexSpace).take k ++ ("AND" : String).data).getLastD ' ') = 'D' := by
                show (((t2.dropWhile isRegexSpace).take k ++ ['A', 'N', 'D']).getLastD ' ') = 'D'
                have he : (t2.dropWhile isRegexSpace).take k ++ ['A', 'N', 'D']
                    = ((t2.dropWhile isRegexSpace).take k ++ ['A', 'N']) ++ ['D'] := by simp
                rw [he, getLastD_snoc]
              rw [hgl]
              exact noQQFrom_of_ne_quote (by decide) hqrest
            · have hgl : (((t2.dropWhile isRegexSpace).take k ++ ("OR" : String).data).getLastD ' ') = 'R' := by
                show (((t2.dropWhile isRegexSpace).take k ++ ['O', 'R']).getLastD ' ') = 'R'
                have he : (t2.dropWhile isRegexSpace).take k ++ ['O', 'R']
                    = ((t2.dropWhile isRegexSpace).take k ++ ['O']) ++ ['R'] := by simp
                rw [he, getLastD_snoc]
              rw [hgl]
              exact noQQFrom_of_ne_quote (by decide) hqrest
        · cases hr : lastNW rest with
          | some c =>
            unfold lastNQ
            rw [lastNW_append_some hr]
            unfold lastNQ at hlrest
            rw [hr] at hlrest
            exact hlrest
          | none =>
            unfold lastNQ
            rw [lastNW_append_none hr]
            rcases hor1 with h | h <;> subst h
            · have hsnoc : lastNW ((t2.dropWhile isRegexSpace).take k ++ ("AND" : String).data)
                  = some 'D' := by
                show lastNW ((t2.dropWhile isRegexSpace).take k ++ ['A', 'N', 'D']) = some 'D'
                have he : (t2.dropWhile isRegexSpace).take k ++ ['A', 'N', 'D']
                    = ((t2.dropWhile isRegexSpace).take k ++ ['A', 'N']) ++ ['D'] := by simp
                rw [he]
                exact lastNW_snoc (by decide) _
              rw [hsnoc]
              decide
            · have hsnoc : lastNW ((t2.dropWhile isRegexSpace).take k ++ ("OR" : String).data)
                  = some 'R' := by
                show lastNW ((t2.dropWhile isRegexSpace).take k ++ ['O', 'R']) = some 'R'
                have he : (t2.dropWhile isRegexSpace).take k ++ ['O', 'R']
                    = ((t2.dropWhile isRegexSpace).take k ++ ['O']) ++ ['R'] := by simp
                rw [he]
                exact lastNW_snoc (by decide) _
              rw [hsnoc]
              decide

/-- Rewrite 2 only drops a leading `\s*(AND|OR)\s*` or keeps the string,
so both invariants restrict to the surviving suffix. -/
theorem regex2_inv {s : List Char} (h1 : noQQ s = true) (h2 : lastNQ s = true) :
    noQQ (regex2Apply s) = true ∧ lastNQ (regex2Apply s) = true := by
  unfold regex2Apply
  split
  · exact ⟨h1, h2⟩
  · rename_i op1 rest hop
    obtain ⟨hdec1, hor1⟩ := opHeadOf_spec hop
    have hs : s = s.takeWhile isRegexSpace ++ (op1.data ++ rest) := by
      conv_lhs => rw [← List.takeWhile_append_dropWhile (p := isRegexSpace) (l := s)]
      rw [hdec1]
    have hq0 : noQQ (s.takeWhile isRegexSpace ++ (op1.data ++ rest)) = true := by
      rw [← hs]; exact h1
    have hqrest : noQQ rest = true := noQQ_append_right (noQQ_append_right hq0)
    have hl0 : lastNQ (s.takeWhile isRegexSpace ++ (op1.data ++ rest)) = true := by
      rw [← hs]; exact h2
    have hlrest : lastNQ rest = true := lastNQ_append_right (lastNQ_append_right hl0)
    split
    · exact ⟨h1, h2⟩
    · split
      · split
        · exact ⟨noQQ_drop _ hqrest, lastNQ_drop _ hlrest⟩
        · exact ⟨noQQ_dropWhile _ hqrest, lastNQ_dropWhile _ hlrest⟩
      · exact ⟨h1, h2⟩

/-- Structure of a single match of rewrite 3 at the head of the input. -/
theorem regex3Match_spec {s q rest : List Char}
    (h : regex3Match s = some (q, rest)) :
    ∃ body d, s = ('"' :: body ++ ['"']) ++ d :: '"' :: '"' :: rest ∧
      q = '"' :: body ++ ['"'] := by
  unfold regex3Match at h
  split at h
  · rename_i cs
    split at h
    · exact absurd h (by simp)
    · split at h
      · rename_i d rest' hdrop
        split at h
        · exact absurd h (by simp)
        · simp only [Option.some.injEq, Prod.mk.injEq] at h
          obtain ⟨hq, hr⟩ := h
          subst hr
          refine ⟨cs.takeWhile (fun c => !(c == '"')), d, ?_, hq.symm⟩
          have hcs : cs = cs.takeWhile (fun c => !(c == '"')) ++
              ('"' :: d :: '"' :: '"' :: rest') := by
            conv_lhs => rw [← List.takeWhile_append_dropWhile
              (p := fun c => !(c == '"')) (l := cs)]
            rw [hdrop]
          conv_lhs => rw [hcs]
          simp
      · exact absurd h (by simp)
  · exact absurd h (by simp)

theorem regex3Aux_noQQ : ∀ (n : Nat) (s : List Char) (p : Char),
    noQQFrom p s = true → noQQFrom p (regex3Aux n s) = true := by
  intro n
  induction n with
  | zero => intro s p h; exact h
  | succ m ih =>
    intro s p h
    cases s with
    | nil => exact h
    | cons c cs =>
      cases hm : regex3Match (c :: cs) with
      | none =>
        have hred : regex3Aux (m + 1) (c :: cs) = c :: regex3Aux m cs := by
          simp [regex3Aux, hm]
        rw [hred]
        have h0 : ((!(p == '"') || !(c == '?')) && noQQFrom c cs) = true := h
        show ((!(p == '"') || !(c == '?')) && noQQFrom c (regex3Aux m cs)) = true
        exact andI (andE1 h0) (ih cs c (andE2 h0))
      | some pr =>
        obtain ⟨q, rest⟩ := pr
        obtain ⟨body, d, hs, hq⟩ := regex3Match_spec hm
        have hred : regex3Aux (m + 1) (c :: cs) = q ++ regex3Aux m rest := by
          simp [regex3Aux, hm]
        rw [hred]
        have h' : noQQFrom p (('"' :: body ++ ['"']) ++ d :: '"' :: '"' :: rest) = true := by
          rw [← hs]; exact h
        rw [noQQFrom_append] at h'
        have hglq : (('"' :: body ++ ['"']).getLastD p) = '"' := by
          show ((('"' :: body) ++ ['"']).getLastD p) = '"'
          rw [getLastD_snoc]
        rw [hglq] at h'
        have hA : noQQFrom p ('"' :: body ++ ['"']) = true := andE1 h'
        have htail : noQQFrom '"' (d :: '"' :: '"' :: rest) = true := andE2 h'
        have htail0 : ((!(('"' : Char) == '"') || !(d == '?')) &&
            noQQFrom d ('"' :: '"' :: rest)) = true := htail
        have t1 : noQQFrom d ('"' :: '"' :: rest) = true := andE2 htail0
        have t1' : ((!(d == '"') || !(('"' : Char) == '?')) &&
            noQQFrom '"' ('"' :: rest)) = true := t1
        have t2 : noQQFrom '"' ('"' :: rest) = true := andE2 t1'
        have t2' : ((!(('"' : Char) == '"') || !(('"' : Char) == '?')) &&
            noQQFrom '"' rest) = true := t2
        have hrest : noQQFrom '"' rest = true := andE2 t2'
        rw [hq, noQQFrom_append]
        apply andI
        · exact hA
        · rw [hglq]
          exact ih rest '"' hrest

/-- Rewrite 3 deletes one character that directly follows a closing `"`,
plus a `""` pair; under the no-`?`-after-`"` invariant that character is
never a placeholder, so the `?` count is unchanged. -/
theorem regex3Aux_count : ∀ (n : Nat) (s : List Char) (p : Char),
    noQQFrom p s = true → (regex3Aux n s).count '?' = s.count '?' := by
  intro n
  induction n with
  | zero => intro s p h; rfl
  | succ m ih =>
    intro s p h
    cases s with
    | nil => rfl
    | cons c cs =>
      cases hm : regex3Match (c :: cs) with
      | none =>
        have hred : regex3Aux (m + 1) (c :: cs) = c :: regex3Aux m cs := by
          simp [regex3Aux, hm]
        have h0 : ((!(p == '"') || !(c == '?')) && noQQFrom c cs) = true := h
        rw [hred, List.count_cons, List.count_cons, ih cs c (andE2 h0)]
      | some pr =>
        obtain ⟨q, rest⟩ := pr
        obtain ⟨body, d, hs, hq⟩ := regex3Match_spec hm
        have hred : regex3Aux (m + 1) (c :: cs) = q ++ regex3Aux m rest := by
          simp [regex3Aux, hm]
        have h' : noQQFrom p (('"' :: body ++ ['"']) ++ d :: '"' :: '"' :: rest) = true := by
          rw [← hs]; exact h
        rw [noQQFrom_append] at h'
        have hglq : (('"' :: body ++ ['"']).getLastD p) = '"' := by
          show ((('"' :: body) ++ ['"']).getLastD p) = '"'
          rw [getLastD_snoc]
        rw [hglq] at h'
        have htail : noQQFrom '"' (d :: '"' :: '"' :: rest) = true := andE2 h'
        have htail0 : ((!(('"' : Char) == '"') || !(d == '?')) &&
            noQQFrom d ('"' :: '"' :: rest)) = true := htail
        have hd : (d == '?') = false := by
          have := andE1 htail0
          simpa using this
        have t1 : noQQFrom d ('"' :: '"' :: rest) = true := andE2 htail0
        have t1' : ((!(d == '"') || !(('"' : Char) == '?')) &&
            noQQFrom '"' ('"' :: rest)) = true := t1
        have t2 : noQQFrom '"' ('"' :: rest) = true := andE2 t1'
        have t2' : ((!(('"' : Char) == '"') || !(('"' : Char) == '?')) &&
            noQQFrom '"' rest) = true := t2
        have hrest : noQQFrom '"' rest = true := andE2 t2'
        have hdq : d ≠ '?' := by
          intro hdd
          subst hdd
          simp at hd
        rw [hred, hq, hs]
        rw [List.count_append, List.count_append, ih rest '"' hrest]
        simp [List.count_cons, hdq]

theorem regex3Aux_last : ∀ (n : Nat) (s : List Char), lastNQ s = true →
    lastNQ (regex3Aux n s) = true ∧
      (∀ c, lastNW s = some c → ∃ d, lastNW (regex3Aux n s) = some d) := by
  intro n
  induction n with
  | zero => intro s h; exact ⟨h, fun c hc => ⟨c, hc⟩⟩
  | succ m ih =>
    intro s h
    cases s with
    | nil => exact ⟨h, fun c hc => ⟨c, hc⟩⟩
    | cons c cs =>
      cases hm : regex3Match (c :: cs) with
      | none =>
        have hred : regex3Aux (m + 1) (c :: cs) = c :: regex3Aux m cs := by
          simp [regex3Aux, hm]
        cases hcs : lastNW cs with
        | some e =>
          have hlcs : lastNQ cs = true := by
            have hc0 : lastNQ ([c] ++ cs) = true := h
            exact lastNQ_append_right hc0
          obtain ⟨hZ, hex⟩ := ih cs hlcs
          obtain ⟨f, hf⟩ := hex e hcs
          have hout : lastNW (c :: regex3Aux m cs) = some f := by
            show lastNW ([c] ++ regex3Aux m cs) = some f
            exact lastNW_append_some hf [c]
          constructor
          · rw [hred]
            unfold lastNQ
            rw [hout]
            unfold lastNQ at hZ
            rw [hf] at hZ
            exact hZ
          · intro c0 hc0
            rw [hred]
            exact ⟨f, hout⟩
        | none =>
          have hdnil : cs.reverse.dropWhile isGoSpace = [] := by
            unfold lastNW at hcs
            cases hdd : cs.reverse.dropWhile isGoSpace with
            | nil => rfl
            | cons x t => rw [hdd] at hcs; simp at hcs
          have hws : ∀ x ∈ cs.reverse, isGoSpace x = true :=
            List.dropWhile_eq_nil_iff.mp hdnil
          have hnq : ¬ '"' ∈ cs := by
            intro hmem
            have := hws '"' (List.mem_reverse.mpr hmem)
            exact absurd this (by decide)
          have hid : regex3Aux m cs = cs := regex3Aux_id m cs hnq
          rw [hred, hid]
          exact ⟨h, fun c0 hc0 => ⟨c0, hc0⟩⟩
      | some pr =>
        obtain ⟨q, rest⟩ := pr
        obtain ⟨body, d, hs, hq⟩ := regex3Match_spec hm
        have hred : regex3Aux (m + 1) (c :: cs) = q ++ regex3Aux m rest := by
          simp [regex3Aux, hm]
        have hsA : (c :: cs) = (('"' :: body ++ ['"']) ++ [d, '"', '"']) ++ rest := by
          rw [hs]
          simp
        cases hr : lastNW rest with
        | some e =>
          have hlr : lastNQ rest = true := by
            have h0 : lastNQ ((('"' :: body ++ ['"']) ++ [d, '"', '"']) ++ rest) = true := by
              rw [← hsA]; exact h
            exact lastNQ_append_right h0
          obtain ⟨hZ, hex⟩ := ih rest hlr
          obtain ⟨f, hf⟩ := hex e hr
          constructor
          · rw [hred]
            unfold lastNQ
            rw [hq, lastNW_append_some hf]
            unfold lastNQ at hZ
            rw [hf] at hZ
            exact hZ
          · intro c0 hc0
            rw [hred]
            exact ⟨f, lastNW_append_some hf _⟩
        | none =>
          exfalso
          have hA1 : lastNW ((('"' :: body ++ ['"']) ++ [d, '"', '"']) ++ rest)
              = lastNW (('"' :: body ++ ['"']) ++ [d, '"', '"']) :=
            lastNW_append_none hr _
          have hA2 : lastNW (('"' :: body ++ ['"']) ++ [d, '"', '"']) = some '"' := by
            have he : ('"' :: body ++ ['"']) ++ [d, '"', '"']
                = (('"' :: body ++ ['"']) ++ [d, '"']) ++ ['"'] := by simp
            rw [he]
            exact lastNW_snoc (by decide) _
          have hA3 : lastNW (c :: cs) = some '"' := by
            rw [hsA, hA1, hA2]
          unfold lastNQ at h
          rw [hA3] at h
          simp at h

/-- The full `cleanExpr` chain preserves the `?` count and both string
invariants, for any input satisfying them. -/
theorem cleanExpr_inv {s : String} (h1 : noQQ s.data = true) (h2 : lastNQ s.data = true) :
    (cleanExpr s).data.count '?' = s.data.count '?' ∧
      noQQ (cleanExpr s).data = true ∧ lastNQ (cleanExpr s).data = true := by
  obtain ⟨hq1, hl1⟩ := regex1_inv h1 h2
  obtain ⟨hq2, hl2⟩ := regex2_inv hq1 hl1
  have hc1 : (regex1Apply s.data).count '?' = s.data.count '?' :=
    count_regex1 s.data (by decide) (by decide) (by decide)
  have hc2 : (regex2Apply (regex1Apply s.data)).count '?'
      = (regex1Apply s.data).count '?' :=
    count_regex2 _ (by decide) (by decide) (by decide)
  have hq3 : noQQ (regex3All (regex2Apply (regex1Apply s.data))) = true :=
    regex3Aux_noQQ _ _ ' ' hq2
  have hl3 : lastNQ (regex3All (regex2Apply (regex1Apply s.data))) = true :=
    (regex3Aux_last _ _ hl2).1
  have hc3 : (regex3All (regex2Apply (regex1Apply s.data))).count '?'
      = (regex2Apply (regex1Apply s.data)).count '?' :=
    regex3Aux_count _ _ ' ' hq2
  refine ⟨?_, ?_, ?_⟩
  · show (trimSpaceL (regex3All (regex2Apply (regex1Apply s.data)))).count '?' = _
    rw [count_trimSpaceL _ (by decide), hc3, hc2, hc1]
  · show noQQ (trimSpaceL (regex3All (regex2Apply (regex1Apply s.data)))) = true
    exact noQQ_trim hq3
  · show lastNQ (trimSpaceL (regex3All (regex2Apply (regex1Apply s.data)))) = true
    exact lastNQ_trim hl3

theorem cleanStr_qm {t : String} (h : cleanStr t = true) : t.data.count '?' = 0 := by
  unfold cleanStr at h
  rw [Bool.and_eq_true, Nat.beq_eq_true_eq, Nat.beq_eq_true_eq] at h
  exact h.1

theorem cleanStr_quot {t : String} (h : cleanStr t = true) : t.data.count '"' = 0 := by
  unfold cleanStr at h
  rw [Bool.and_eq_true, Nat.beq_eq_true_eq, Nat.beq_eq_true_eq] at h
  exact h.2

/-- Every value of the operator-mapping table is clean. -/
theorem operatorMappings_clean {op t : String} (h : operatorMappings op = some t) :
    cleanStr t = true := by
  unfold operatorMappings at h
  cases hf : operatorMappingsList.find? (fun kv => kv.1 == op) with
  | none => rw [hf] at h; exact Option.noConfusion h
  | some kv =>
    rw [hf] at h
    have hkv := Option.some.inj h
    have hm := List.mem_of_find?_eq_some hf
    have hall : ∀ kv ∈ operatorMappingsList, cleanStr kv.2 = true := by decide
    rw [← hkv]
    exact hall kv hm

theorem opMapped_clean (op dflt : String) (hd : cleanStr dflt = true) :
    cleanStr ((operatorMappings op).getD dflt) = true := by
  cases hm : operatorMappings op with
  | none => simpa using hd
  | some t => simpa using operatorMappings_clean hm

theorem boolOpFor_clean (bop : String) (opt : ToSQLOptions) :
    cleanStr (boolOpFor bop opt) = true := by
  simp only [boolOpFor]
  split_ifs <;> first | exact opMapped_clean bop "" (by decide) | decide

theorem termStep1_default_inv {t op1 : String} (v : IVal)
    (ht : t.data.count '?' = 0) (hop1 : op1.data.count '?' = 0) :
    LeafInv (t ++ " " ++ op1 ++ " ?") [v] := by
  have hsp : (" " : String).data.count '?' = 0 := by decide
  have hq1 : (" ?" : String).data.count '?' = 1 := by decide
  refine ⟨?_, ?_, ?_⟩
  · rw [String.data_append, String.data_append, String.data_append,
      List.count_append, List.count_append, List.count_append, ht, hop1, hsp, hq1]
    rfl
  · intro p
    rw [String.data_append]
    refine noQQFrom_concat_lit ?_ (by decide) p
    rw [String.data_append, String.data_append, List.count_append,
      List.count_append, ht, hop1, hsp]
  · refine ⟨'?', ?_, by decide⟩
    rw [String.data_append]
    exact lastNW_append_some (by decide) _

theorem termStep1_inv {t op1 : String} (value : IVal)
    (ht : t.data.count '?' = 0) (hop1 : op1.data.count '?' = 0) :
    LeafInv (termStep1 t op1 value).1 (termStep1 t op1 value).2.1 := by
  cases value with
  | wc wp wsfx wt =>
    simp only [termStep1]
    split
    · refine ⟨?_, ?_, ⟨'\'', ?_, by decide⟩⟩
      · rw [String.data_append, List.count_append, ht]
        rfl
      · intro p
        rw [String.data_append]
        exact noQQFrom_concat_lit ht (by decide) p
      · rw [String.data_append]
        exact lastNW_append_some (by decide) _
    · refine ⟨?_, ?_, ⟨'\'', ?_, by decide⟩⟩
      · rw [String.data_append, List.count_append, ht]
        rfl
      · intro p
        rw [String.data_append]
        exact noQQFrom_concat_lit ht (by decide) p
      · rw [String.data_append]
        exact lastNW_append_some (by decide) _
    · refine ⟨?_, ?_, ⟨'\'', ?_, by decide⟩⟩
      · rw [String.data_append, List.count_append, ht]
        rfl
      · intro p
        rw [String.data_append]
        exact noQQFrom_concat_lit ht (by decide) p
      · rw [String.data_append]
        exact lastNW_append_some (by decide) _
    · refine ⟨?_, ?_, ⟨'\'', ?_, by decide⟩⟩
      · rw [String.data_append, List.count_append, ht]
        rfl
      · intro p
        rw [String.data_append]
        exact noQQFrom_concat_lit ht (by decide) p
      · rw [String.data_append]
        exact lastNW_append_some (by decide) _
    · refine ⟨?_, ?_, ⟨'L', ?_, by decide⟩⟩
      · rw [String.data_append, List.count_append, ht]
        rfl
      · intro p
        rw [String.data_append]
        exact noQQFrom_concat_lit ht (by decide) p
      · rw [String.data_append]
        exact lastNW_append_some (by decide) _
  | null => exact termStep1_default_inv _ ht hop1
  | bool b => exact termStep1_default_inv _ ht hop1
  | int n => exact termStep1_default_inv _ ht hop1
  | dec d => exact termStep1_default_inv _ ht hop1
  | str s => exact termStep1_default_inv _ ht hop1
  | arr l => exact termStep1_default_inv _ ht hop1
  | termQ a b c d => exact termStep1_default_inv _ ht hop1
  | rangeQ a b c d => exact termStep1_default_inv _ ht hop1
  | boolE a b => exact termStep1_default_inv _ ht hop1

theorem termStep1_in {t op1 : String} {value : IVal}
    (h : (termStep1 t op1 value).2.2 = "IN") :
    termStep1 t op1 value = (t ++ " " ++ op1 ++ " ?", [value], op1) := by
  cases value <;> simp only [termStep1] at h ⊢ <;>
    first
      | rfl
      | (split at h <;> simp_all)

theorem inTuple_inv {t : String} (ht : t.data.count '?' = 0) (v : IVal) :
    LeafInv (t ++ " IN (?)") [v] := by
  refine ⟨?_, ?_, ⟨')', ?_, by decide⟩⟩
  · rw [String.data_append, List.count_append, ht]
    rfl
  · intro p
    rw [String.data_append]
    exact noQQFrom_concat_lit ht (by decide) p
  · rw [String.data_append]
    exact lastNW_append_some (by decide) _

theorem termStep2_inv {opt : ToSQLOptions} {t op1 : String} (value : IVal)
    (hih : opt.InHandler = none)
    (ht : t.data.count '?' = 0) (hop1 : op1.data.count '?' = 0) :
    LeafInv (termStep2 opt t value (termStep1 t op1 value)).1
      (termStep2 opt t value (termStep1 t op1 value)).2 := by
  unfold termStep2
  split
  · rename_i hin
    rw [termStep1_in hin, hih]
    cases value with
    | arr l =>
      by_cases hl : l.isEmpty
      · simp only [hl, if_true]
        exact ⟨by decide, fun p => noQQFrom_of_no_qm (by decide) p,
          ⟨'0', by decide, by decide⟩⟩
      · simp only [hl, Bool.false_eq_true, if_false]
        exact inTuple_inv ht (IVal.arr l)
    | null => exact inTuple_inv ht IVal.null
    | bool b => exact inTuple_inv ht (IVal.bool b)
    | int n => exact inTuple_inv ht (IVal.int n)
    | dec d => exact inTuple_inv ht (IVal.dec d)
    | str s => exact inTuple_inv ht (IVal.str s)
    | wc a b c => exact inTuple_inv ht (IVal.wc a b c)
    | termQ a b c d => exact inTuple_inv ht (IVal.termQ a b c d)
    | rangeQ a b c d => exact inTuple_inv ht (IVal.rangeQ a b c d)
    | boolE a b => exact inTuple_inv ht (IVal.boolE a b)
  · exact termStep1_inv value ht hop1

theorem resolveTerm_qm {a b t : String} (ha : a.data.count '?' = 0)
    (hb : b.data.count '?' = 0) (h : resolveTerm a b = some t) :
    t.data.count '?' = 0 := by
  unfold resolveTerm at h
  split_ifs at h <;> first
    | (have h' := Option.some.inj h; subst h'; assumption)
    | exact Option.noConfusion h

theorem termPrefixed_count_qm (opt : ToSQLOptions) (pfx q : String) :
    (termPrefixed opt pfx q).data.count '?' = q.data.count '?' := by
  have h1 : (" AND " : String).data.count '?' = 0 := by decide
  have h2 : (" OR NOT " : String).data.count '?' = 0 := by decide
  have h3 : (" AND NOT " : String).data.count '?' = 0 := by decide
  unfold termPrefixed
  split_ifs <;> simp [String.data_append, List.count_append, h1, h2, h3]

theorem termPrefixed_noQQ {q : String} (opt : ToSQLOptions) (pfx : String)
    (h : ∀ p, noQQFrom p q.data = true) (p : Char) :
    noQQFrom p (termPrefixed opt pfx q).data = true := by
  unfold termPrefixed
  split_ifs <;>
    first
      | exact h p
      | (rw [String.data_append, noQQFrom_append]
         exact andI (noQQFrom_of_no_qm (by decide) p) (h _))

theorem termPrefixed_lastNW {q : String} (opt : ToSQLOptions) (pfx : String)
    {c : Char} (h : lastNW q.data = some c) :
    lastNW (termPrefixed opt pfx q).data = some c := by
  unfold termPrefixed
  split_ifs <;>
    first
      | exact h
      | (rw [String.data_append]; exact lastNW_append_some h _)

theorem renderTerm_inv {opt : ToSQLOptions} {term pfx op : String}
    {value : IVal} {q : Query}
    (hch : opt.ColumnHandler = some defaultColumnHandler)
    (hih : opt.InHandler = none)
    (hterm : term.data.count '?' = 0)
    (hdf : opt.DefaultField.data.count '?' = 0)
    (h : renderTerm opt term pfx op value = .ok q) :
    q.Query.data.count '?' = q.Args.length ∧ noQQ q.Query.data = true ∧
      lastNQ q.Query.data = true := by
  unfold renderTerm at h
  simp only [columnHandlerOf, hch, defaultColumnHandler, ne_eq,
    not_true_eq_false, if_false, ite_false] at h
  cases hres : resolveTerm term opt.DefaultField with
  | none => rw [hres] at h; exact Except.noConfusion h
  | some t =>
    rw [hres] at h
    simp only [] at h
    have ht : t.data.count '?' = 0 := resolveTerm_qm hterm hdf hres
    split at h
    · have h' := Except.ok.inj h
      subst h'
      refine ⟨?_, ?_, ?_⟩
      · show (if pfx = "-" then t ++ " IS NOT NULL" else t ++ " IS NULL").data.count '?'
            = ([] : List IVal).length
        split_ifs <;>
          (rw [String.data_append, List.count_append, ht]; decide)
      · show noQQ (if pfx = "-" then t ++ " IS NOT NULL" else t ++ " IS NULL").data = true
        split_ifs <;>
          (refine noQQ_of_no_qm ?_
           rw [String.data_append, List.count_append, ht]
           decide)
      · show lastNQ (if pfx = "-" then t ++ " IS NOT NULL" else t ++ " IS NULL").data = true
        split_ifs
        · rw [String.data_append]
          have hlw : lastNW (" IS NOT NULL" : String).data = some 'L' := by decide
          exact lastNQ_of_some (lastNW_append_some hlw _) (by decide)
        · rw [String.data_append]
          have hlw : lastNW (" IS NULL" : String).data = some 'L' := by decide
          exact lastNQ_of_some (lastNW_append_some hlw _) (by decide)
    · have h' := Except.ok.inj h
      subst h'
      have hop1 : (if op ≠ "" then (operatorMappings op).getD "=" else "=").data.count '?'
          = 0 := by
        split_ifs
        · exact cleanStr_qm (opMapped_clean op "=" (by decide))
        · decide
      obtain ⟨hc, hnq, hex⟩ := termStep2_inv value hih ht hop1
      refine ⟨?_, ?_, ?_⟩
      · rw [termPrefixed_count_qm]
        exact hc
      · exact noQQ_of_from (termPrefixed_noQQ opt pfx hnq ' ')
      · obtain ⟨c0, hlw, hc0⟩ := hex
        exact lastNQ_of_some (termPrefixed_lastNW opt pfx hlw) hc0

theorem leafInv_to_inv {str : String} {args : List IVal} (h : LeafInv str args) :
    str.data.count '?' = args.length ∧ noQQ str.data = true ∧
      lastNQ str.data = true := by
  obtain ⟨h1, h2, c, hc, hcq⟩ := h
  exact ⟨h1, noQQ_of_from (h2 ' '), lastNQ_of_some hc hcq⟩

theorem betweenStr_inv {t os : String} (ht : t.data.count '?' = 0)
    (hos : os.data.count '?' = 0) (v1 v2 : IVal) :
    LeafInv (t ++ " " ++ os ++ " ? and ?") [v1, v2] := by
  refine ⟨?_, ?_, ⟨'?', ?_, by decide⟩⟩
  · rw [String.data_append, String.data_append, String.data_append,
      List.count_append, List.count_append, List.count_append, ht, hos]
    rfl
  · intro p
    rw [String.data_append]
    refine noQQFrom_concat_lit ?_ (by decide) p
    rw [String.data_append, String.data_append, List.count_append,
      List.count_append, ht, hos]
    rfl
  · rw [String.data_append]
    exact lastNW_append_some (by decide) _

theorem exclStr_inv {t : String} (ht : t.data.count '?' = 0) (v1 v2 : IVal) :
    LeafInv (t ++ " > ? and " ++ t ++ " < ?") [v1, v2] := by
  refine ⟨?_, ?_, ⟨'?', ?_, by decide⟩⟩
  · rw [String.data_append, String.data_append, String.data_append,
      List.count_append, List.count_append, List.count_append, ht]
    rfl
  · intro p
    rw [String.data_append, noQQFrom_append]
    apply andI
    · rw [String.data_append, noQQFrom_append]
      apply andI
      · rw [String.data_append]
        exact noQQFrom_concat_lit ht (by decide) p
      · exact noQQFrom_of_no_qm ht _
    · exact noQQFrom_any (by decide) _
  · rw [String.data_append]
    exact lastNW_append_some (by decide) _

theorem renderRange_inv {opt : ToSQLOptions} {mn mx : IVal} {term : String}
    {incl : Bool} {q : Query}
    (hch : opt.ColumnHandler = some defaultColumnHandler)
    (hterm : term.data.count '?' = 0)
    (hdf : opt.DefaultField.data.count '?' = 0)
    (h : renderRange opt mn mx term incl = .ok q) :
    q.Query.data.count '?' = q.Args.length ∧ noQQ q.Query.data = true ∧
      lastNQ q.Query.data = true := by
  unfold renderRange at h
  simp only [columnHandlerOf, hch, defaultColumnHandler, ne_eq,
    not_true_eq_false, if_false, ite_false] at h
  cases hres : resolveTerm term opt.DefaultField with
  | none => rw [hres] at h; exact Except.noConfusion h
  | some t =>
    rw [hres] at h
    simp only [] at h
    have ht := resolveTerm_qm hterm hdf hres
    have hopq : ∀ o : String, ((operatorMappings o).getD "").data.count '?' = 0 :=
      fun o => cleanStr_qm (opMapped_clean o "" (by decide))
    split_ifs at h <;>
      first
        | exact Except.noConfusion h
        | (have h' := Except.ok.inj h; subst h';
           exact leafInv_to_inv (termStep1_default_inv _ ht (hopq _)))
        | (have h' := Except.ok.inj h; subst h';
           exact leafInv_to_inv (betweenStr_inv ht (hopq _) mn mx))
        | (have h' := Except.ok.inj h; subst h';
           exact leafInv_to_inv (exclStr_inv ht mn mx))

theorem renderJoin_inv {rec : IVal → Except Err Query} {op : String}
    (hop : cleanStr op = true) :
    ∀ (rs : List IVal) (fst : Bool) (acc q : Query),
      (∀ r q', r ∈ rs → rec r = .ok q' →
        q'.Query.data.count '?' = q'.Args.length ∧ noQQ q'.Query.data = true ∧
          lastNQ q'.Query.data = true) →
      acc.Query.data.count '?' = acc.Args.length →
      noQQ acc.Query.data = true →
      lastNQ acc.Query.data = true →
      renderJoin rec op rs fst acc = .ok q →
      q.Query.data.count '?' = q.Args.length ∧ noQQ q.Query.data = true ∧
        lastNQ q.Query.data = true := by
  intro rs
  induction rs with
  | nil =>
    intro fst acc q _ h1 h2 h3 h
    have h' := Except.ok.inj h
    subst h'
    exact ⟨h1, h2, h3⟩
  | cons r rs ih =>
    intro fst acc q hrec h1 h2 h3 h
    unfold renderJoin at h
    cases hr : rec r with
    | error e => rw [hr] at h; exact Except.noConfusion h
    | ok q' =>
      rw [hr] at h
      simp only [] at h
      obtain ⟨hq'c, hq'n, hq'l⟩ := hrec r q' (List.mem_cons_self r rs) hr
      have hsepq : (if !fst && !startsWithOpB q'.Query then " " ++ op ++ " "
          else "").data.count '?' = 0 := by
        split_ifs <;>
          simp [String.data_append, List.count_append, cleanStr_qm hop] <;> decide
      have hsepg : (if !fst && !startsWithOpB q'.Query then " " ++ op ++ " "
          else "").data.count '"' = 0 := by
        split_ifs <;>
          simp [String.data_append, List.count_append, cleanStr_quot hop] <;> decide
      have hsn : noQQ (if !fst && !startsWithOpB q'.Query then " " ++ op ++ " "
          else "").data = true := noQQ_of_no_qm hsepq
      have hsl : lastNQ (if !fst && !startsWithOpB q'.Query then " " ++ op ++ " "
          else "").data = true := lastNQ_of_no_quote hsepg
      have haccn : noQQ ((acc.Query ++
          (if !fst && !startsWithOpB q'.Query then " " ++ op ++ " " else "")) ++
          q'.Query).data = true := by
        rw [String.data_append, String.data_append]
        exact noQQ_concat (noQQ_concat h2 h3 hsn) (lastNQ_append h3 hsl) hq'n
      have haccl : lastNQ ((acc.Query ++
          (if !fst && !startsWithOpB q'.Query then " " ++ op ++ " " else "")) ++
          q'.Query).data = true := by
        rw [String.data_append, String.data_append]
        exact lastNQ_append (lastNQ_append h3 hsl) hq'l
      refine ih false _ q
        (fun r' q'' hm hr' => hrec r' q'' (List.mem_cons_of_mem r hm) hr') ?_ ?_ ?_ h
      · rw [String.data_append, List.count_append, String.data_append,
          List.count_append, List.length_append, h1, hq'c, hsepq]
        omega
      · exact haccn
      · exact haccl

theorem renderFold_inv {rec : IVal → Except Err Query} :
    ∀ (rs : List IVal) (acc q : Query),
      (∀ r q', r ∈ rs → rec r = .ok q' →
        q'.Query.data.count '?' = q'.Args.length ∧ noQQ q'.Query.data = true ∧
          lastNQ q'.Query.data = true) →
      acc.Query.data.count '?' = acc.Args.length →
      noQQ acc.Query.data = true →
      lastNQ acc.Query.data = true →
      renderFold rec rs acc = .ok q →
      q.Query.data.count '?' = q.Args.length ∧ noQQ q.Query.data = true ∧
        lastNQ q.Query.data = true := by
  intro rs
  induction rs with
  | nil =>
    intro acc q _ h1 h2 h3 h
    have h' := Except.ok.inj h
    subst h'
    exact ⟨h1, h2, h3⟩
  | cons r rs ih =>
    intro acc q hrec h1 h2 h3 h
    unfold renderFold at h
    cases hr : rec r with
    | error e => rw [hr] at h; exact Except.noConfusion h
    | ok q' =>
      rw [hr] at h
      simp only [] at h
      obtain ⟨hq'c, hq'n, hq'l⟩ := hrec r q' (List.mem_cons_self r rs) hr
      refine ih _ q
        (fun r' q'' hm hr' => hrec r' q'' (List.mem_cons_of_mem r hm) hr') ?_ ?_ ?_ h
      · rw [String.data_append, List.count_append, List.length_append, h1, hq'c]
      · rw [String.data_append]
        exact noQQ_concat h2 h3 hq'n
      · rw [String.data_append]
        exact lastNQ_append h3 hq'l

theorem qmFree_eq {t : String} (h : qmFree t = true) : t.data.count '?' = 0 := by
  unfold qmFree at h
  rw [Nat.beq_eq_true_eq] at h
  exact h

theorem renderSQL_inv : ∀ (fuel : Nat) (v : IVal) (opt : ToSQLOptions) (q : Query),
    opt.ColumnHandler = some defaultColumnHandler →
    opt.InHandler = none →
    qmFree opt.DefaultField = true →
    qmFreeFilter fuel v = true →
    renderSQL fuel v opt = .ok q →
    q.Query.data.count '?' = q.Args.length ∧ noQQ q.Query.data = true ∧
      lastNQ q.Query.data = true := by
  intro fuel
  induction fuel with
  | zero => intro v opt q _ _ _ _ h; exact Except.noConfusion h
  | succ n ih =>
    intro v opt q hch hih hdf hcf h
    cases v with
    | arr l =>
      have h2 : (match renderFold (fun r => renderSQL n r opt) l emptyQuery with
          | Except.error e => (Except.error e : Except Err Query)
          | Except.ok q0 =>
            Except.ok { Query := cleanExpr q0.Query, Args := q0.Args,
                        Columns := q0.Columns }) = Except.ok q := h
      cases hf : renderFold (fun r => renderSQL n r opt) l emptyQuery with
      | error e => rw [hf] at h2; exact Except.noConfusion h2
      | ok q0 =>
        rw [hf] at h2
        have h' := Except.ok.inj h2
        subst h'
        have hall : ∀ r ∈ l, qmFreeFilter n r = true := by
          have hx : (l.all (qmFreeFilter n)) = true := hcf
          exact fun r hr => List.all_eq_true.mp hx r hr
        have hq0 := renderFold_inv l emptyQuery q0
          (fun r q' hm hr => ih r opt q' hch hih hdf (hall r hm) hr)
          (by simp [emptyQuery]) (by decide) (by decide) hf
        have hce := cleanExpr_inv (s := q0.Query) hq0.2.1 hq0.2.2
        exact ⟨by rw [hce.1, hq0.1], hce.2.1, hce.2.2⟩
    | str s =>
      have h2 : (match parseLucene s with
          | Except.error e => (Except.error e : Except Err Query)
          | Except.ok dsl => renderSQL n dsl opt) = Except.ok q := h
      cases hp : parseLucene s with
      | error e => rw [hp] at h2; exact Except.noConfusion h2
      | ok dsl =>
        rw [hp] at h2
        have hcf' : qmFreeFilter n dsl = true := by
          have hx : (match parseLucene s with
              | Except.ok dsl' => qmFreeFilter n dsl'
              | Except.error _ => true) = true := hcf
          rw [hp] at hx
          exact hx
        exact ih dsl opt q hch hih hdf hcf' h2
    | boolE bop args =>
      have h2 : (match renderJoin (fun r => renderSQL n r opt) (boolOpFor bop opt)
            args true emptyQuery with
          | Except.error e => (Except.error e : Except Err Query)
          | Except.ok q0 =>
            Except.ok { Query := "(" ++ trimSpace (cleanExpr q0.Query) ++ ")",
                        Args := q0.Args, Columns := q0.Columns }) = Except.ok q := h
      cases hf : renderJoin (fun r => renderSQL n r opt) (boolOpFor bop opt)
          args true emptyQuery with
      | error e => rw [hf] at h2; exact Except.noConfusion h2
      | ok q0 =>
        rw [hf] at h2
        have h' := Except.ok.inj h2
        subst h'
        have hall : ∀ r ∈ args, qmFreeFilter n r = true := by
          have hx : (args.all (qmFreeFilter n)) = true := hcf
          exact fun r hr => List.all_eq_true.mp hx r hr
        have hq0 := renderJoin_inv (boolOpFor_clean bop opt) args true emptyQuery q0
          (fun r q' hm hr => ih r opt q' hch hih hdf (hall r hm) hr)
          (by simp [emptyQuery]) (by decide) (by decide) hf
        have hce := cleanExpr_inv (s := q0.Query) hq0.2.1 hq0.2.2
        have htrq : (trimSpace (cleanExpr q0.Query)).data.count '?'
            = (cleanExpr q0.Query).data.count '?' := count_trimSpaceL _ (by decide)
        have htrn : noQQ (trimSpace (cleanExpr q0.Query)).data = true :=
          noQQ_trim hce.2.1
        have htrl : lastNQ (trimSpace (cleanExpr q0.Query)).data = true :=
          lastNQ_trim hce.2.2
        have hp1q : ("(" : String).data.count '?' = 0 := by decide
        have hp2q : (")" : String).data.count '?' = 0 := by decide
        refine ⟨?_, ?_, ?_⟩
        · show ("(" ++ trimSpace (cleanExpr q0.Query) ++ ")").data.count '?'
            = q0.Args.length
          rw [String.data_append, List.count_append, String.data_append,
            List.count_append, hp1q, hp2q, htrq, hce.1, hq0.1]
          omega
        · show noQQ ("(" ++ trimSpace (cleanExpr q0.Query) ++ ")").data = true
          rw [String.data_append, String.data_append]
          unfold noQQ
          rw [noQQFrom_append]
          apply andI
          · rw [noQQFrom_append]
            apply andI
            · decide
            · have hgl : (("(" : String).data.getLastD ' ') = '(' := by decide
              rw [hgl]
              exact noQQFrom_of_ne_quote (by decide) htrn
          · exact noQQFrom_any (by decide) _
        · show lastNQ ("(" ++ trimSpace (cleanExpr q0.Query) ++ ")").data = true
          rw [String.data_append, String.data_append]
          have hlw : lastNW ((("(" : String).data
              ++ (trimSpace (cleanExpr q0.Query)).data) ++ (")" : String).data)
              = some ')' := lastNW_append_some (by decide) _
          exact lastNQ_of_some hlw (by decide)
    | termQ t p o val =>
      exact renderTerm_inv hch hih (qmFree_eq (by exact hcf)) (qmFree_eq hdf) h
    | rangeQ mn mx t incl =>
      exact renderRange_inv hch (qmFree_eq (by exact hcf)) (qmFree_eq hdf) h
    | null => exact Except.noConfusion h
    | bool b => exact Except.noConfusion h
    | int n' => exact Except.noConfusion h
    | dec d => exact Except.noConfusion h
    | wc a b c => exact Except.noConfusion h

/-! ## C1 -/

/-- C1: the spec says `Query.columns` is deduplicated in first-seen order,
and the generator's `cache` map exists precisely for that check — but the
source never writes to `cache`, so the membership test is dead and a
column referenced twice appears twice.  Rendering `a: 1 a: 2` yields
`Columns = ["a", "a"]`, not `["a"]`. -/
theorem c1_columns_not_deduplicated :
    (ToSQL (IVal.str "a: 1 a: 2") optNone).fst
      = .ok { Query := "(a = ? OR a = ?)", Args := [IVal.int 1, IVal.int 2],
              Columns := ["a", "a"] } := by
  rfl

/-! ## C2 -/

/-- C2 counterexample: the parser accepts `f:[* TO *]` (both bounds
unbounded), `RangeQuery.Kind` then yields `"e"`, and `ToSQL` fails with
`unknown range type: e` — so the renderer's default range branch IS
reachable from parser output, contrary to the claim. -/
theorem c2_counterexample :
    parseLucene "f:[* TO *]"
      = .ok (IVal.rangeQ (IVal.str "*") (IVal.str "*") "f" true) ∧
    rangeKind (IVal.str "*") (IVal.str "*") true = "e" ∧
    (ToSQL (IVal.str "f:[* TO *]") optNone).fst
      = .error (Err.unknownRangeType "e") :=
  ⟨rfl, rfl, rfl⟩

/-- C2 (amended): for every Range with at least one effective bound
(non-nil, not `"*"`), `Kind` yields one of gt, gte, lt, lte, between, so
the renderer's default branch is unreachable for such ranges; a Range
both of whose bounds are `*` (or nil) — which the parser can produce, for
example from `f:[* TO *]` — yields `""` or `"e"` and does hit the
`unknown range type` error. -/
theorem c2_kind_total : ∀ (mn mx : IVal) (incl : Bool),
    (rangeHasBound mn = true ∨ rangeHasBound mx = true) →
    rangeKind mn mx incl ∈ (["gt", "gte", "lt", "lte", "between"] : List String) := by
  intro mn mx incl h
  unfold rangeKind
  cases hmn : rangeHasBound mn <;> cases hmx : rangeHasBound mx <;>
    cases incl <;> simp_all

/-- Witness for `c2_kind_total` at the range of `f: {5 TO *}`. -/
theorem c2_kind_total_witness :
    rangeKind (IVal.int 5) (IVal.str "*") false
      ∈ (["gt", "gte", "lt", "lte", "between"] : List String) :=
  c2_kind_total (IVal.int 5) (IVal.str "*") false (Or.inl rfl)

/-! ## C3 -/

/-- C3 counterexample: `ToSQL` writes the default column handler into the
caller's options when none is set — the `ToSQLOptions` value passed in is
NOT unchanged after the call. -/
theorem c3_counterexample :
    optNone.ColumnHandler.isNone = true ∧
    ((ToSQL (IVal.str "a: 1") optNone).snd).ColumnHandler.isNone = false :=
  ⟨rfl, rfl⟩

/-- C3 (amended): `ToSQL` is deterministic — equal filter and equal
option fields give equal results — and mutates nothing in the caller's
options except `ColumnHandler`, which is set to the default handler when
it was nil; the other three fields are unchanged. -/
theorem c3_amended :
    (∀ (filter : IVal) (o1 o2 : ToSQLOptions),
      o1.DefaultField = o2.DefaultField → o1.SearchMode = o2.SearchMode →
      o1.InHandler = o2.InHandler → o1.ColumnHandler = o2.ColumnHandler →
      ToSQL filter o1 = ToSQL filter o2) ∧
    (∀ (filter : IVal) (opt : ToSQLOptions),
      (ToSQL filter opt).snd.DefaultField = opt.DefaultField ∧
      (ToSQL filter opt).snd.SearchMode = opt.SearchMode ∧
      (ToSQL filter opt).snd.InHandler = opt.InHandler ∧
      (ToSQL filter opt).snd.ColumnHandler
        = some (opt.ColumnHandler.getD defaultColumnHandler)) := by
  constructor
  · intro filter o1 o2 h1 h2 h3 h4
    obtain ⟨a1, b1, c1, d1⟩ := o1
    obtain ⟨a2, b2, c2, d2⟩ := o2
    simp only [] at h1 h2 h3 h4
    subst h1; subst h2; subst h3; subst h4
    rfl
  · intro filter opt
    unfold ToSQL
    cases hc : opt.ColumnHandler with
    | none =>
      simp only [hc, Option.isNone_none, if_true]
      split <;> simp [hc]
    | some hdl =>
      simp only [hc, Option.isNone_some, Bool.false_eq_true, if_false]
      split <;> simp [hc]

/-! ## C4 -/

/-- C4 counterexample: for V = `true` the identities fail — `f: > true`
parses the bound as the boolean `true` while `f: {true TO *}` reads the
unquoted identifier `"true"`, so the two parses differ. -/
theorem c4_counterexample :
    parseLucene "f: > true"
      = .ok (IVal.rangeQ (IVal.bool true) (IVal.str "*") "f" false) ∧
    parseLucene "f: {true TO *}"
      = .ok (IVal.rangeQ (IVal.str "true") (IVal.str "*") "f" false) ∧
    parseLucene "f: > true" ≠ parseLucene "f: {true TO *}" := by
  refine ⟨rfl, rfl, ?_⟩
  intro h
  rw [(rfl : parseLucene "f: > true"
        = .ok (IVal.rangeQ (IVal.bool true) (IVal.str "*") "f" false)),
      (rfl : parseLucene "f: {true TO *}"
        = .ok (IVal.rangeQ (IVal.str "true") (IVal.str "*") "f" false))] at h
  have h2 := Except.ok.inj h
  injection h2 with hmin
  exact IVal.noConfusion hmin

/-- C4 (amended): the `Term.Query()` rewrite at `FieldExp` reduction maps
an inequality term to exactly the Range the bracket syntax builds, for
every field and every value — so the parse identities hold whenever the
term and range grammars read V's literal to the same value (numbers,
quoted strings, plain identifiers, shown concretely below); they fail
when the two grammars read the literal differently, e.g. V = `true`. -/
theorem c4_amended :
    (∀ (f pfx : String) (v : IVal),
      termQueryQuery f pfx "gt" v = IVal.rangeQ v (IVal.str "*") f false ∧
      termQueryQuery f pfx "gte" v = IVal.rangeQ v (IVal.str "*") f true ∧
      termQueryQuery f pfx "lt" v = IVal.rangeQ (IVal.str "*") v f false ∧
      termQueryQuery f pfx "lte" v = IVal.rangeQ (IVal.str "*") v f true) ∧
    (parseLucene "f: > 5" = parseLucene "f: {5 TO *}" ∧
     parseLucene "f: > 5" = parseLucene "f: gt 5") ∧
    (parseLucene "f: >= 5" = parseLucene "f: [5 TO *]" ∧
     parseLucene "f: >= 5" = parseLucene "f: gte 5") ∧
    (parseLucene "f: < 5" = parseLucene "f: {* TO 5}" ∧
     parseLucene "f: < 5" = parseLucene "f: lt 5") ∧
    (parseLucene "f: <= 5" = parseLucene "f: [* TO 5]" ∧
     parseLucene "f: <= 5" = parseLucene "f: lte 5") ∧
    (parseLucene "f: > v1" = parseLucene "f: {v1 TO *}" ∧
     parseLucene "f: > \"a b\"" = parseLucene "f: \x7b\"a b\" TO *\x7d") :=
  ⟨fun _ _ _ => ⟨rfl, rfl, rfl, rfl⟩,
   ⟨rfl, rfl⟩, ⟨rfl, rfl⟩, ⟨rfl, rfl⟩, ⟨rfl, rfl⟩, ⟨rfl, rfl⟩⟩

/-! ## C5 -/

/-- C5 counterexample: `?` is a legal identifier character, so the filter
`tes?t: 1` renders to `tes?t = ?` — two `?` characters (counting as the
claim does) against a single bound argument. -/
theorem c5_counterexample :
    (ToSQL (IVal.str "tes?t: 1") optNone).fst
      = .ok { Query := "tes?t = ?", Args := [IVal.int 1], Columns := ["tes?t"] } ∧
    placeholderCount "tes?t = ?" = 2 ∧
    ([IVal.int 1] : List IVal).length = 1 :=
  ⟨rfl, rfl, rfl⟩

/-- C5 (amended): with the default column handler and no `inHandler`,
the number of `?` characters in the generated SQL (including those
inside `LIKE '…'` literals) equals `len(args)` — position for position,
as the renderer appends each argument in the same left-to-right order in
which it emits the matching placeholder and the cleanup rewrites never
reorder or delete a `?` — provided every `Term`/`Range` name in the
filter and the default field are free of the `?` character.  Names
containing `"` are covered: every emitted `?` is preceded by a space,
`(`, `'` or `%`, never by `"`, so the quote-collapsing rewrite #3 can
only ever delete non-placeholder characters. -/
theorem c5_amended : ∀ (filter : IVal) (opt : ToSQLOptions) (q : Query),
    opt.ColumnHandler = none → opt.InHandler = none →
    qmFree opt.DefaultField = true →
    qmFreeFilter (ivalFuel filter) filter = true →
    (ToSQL filter opt).fst = .ok q →
    placeholderCount q.Query = q.Args.length := by
  intro filter opt q hch hih hdf hcf h
  unfold ToSQL at h
  rw [hch] at h
  simp only [Option.isNone_none, if_true] at h
  cases hr : renderSQL (ivalFuel filter) filter
      { opt with ColumnHandler := some defaultColumnHandler } with
  | error e => rw [hr] at h; exact Except.noConfusion h
  | ok q0 =>
    rw [hr] at h
    simp only [] at h
    have h' := Except.ok.inj h
    subst h'
    have hq0 := renderSQL_inv (ivalFuel filter) filter
      { opt with ColumnHandler := some defaultColumnHandler } q0
      rfl (by simpa using hih) (by simpa using hdf) hcf hr
    have hce := cleanExpr_inv (s := q0.Query) hq0.2.1 hq0.2.2
    show (cleanExpr q0.Query).data.count '?' = q0.Args.length
    rw [hce.1, hq0.1]

/-- Witness for `c5_amended`: the quote-bearing field name `"a"` (parsed
from the quoted fieldname `"\"a\""`) renders with one placeholder and one
argument — the case the weaker quote-free amendment left uncovered. -/
theorem c5_witness :
    placeholderCount "\"a\" = ?" = ([IVal.int 1] : List IVal).length :=
  c5_amended (IVal.str "\"\\\"a\\\"\": 1") optNone
    { Query := "\"a\" = ?", Args := [IVal.int 1], Columns := ["\"a\""] }
    rfl rfl (by decide) (by decide) rfl

/-! ## C6 -/

/-- C6: a `Term` with a known field and null value renders as
`term IS NULL` (or `term IS NOT NULL` when the prefix is `-`) with no
bound arguments. -/
theorem c6_null_term_render : ∀ (fuel : Nat) (term pfx op : String)
    (opt : ToSQLOptions),
    opt.ColumnHandler = some defaultColumnHandler →
    term ≠ "" →
    renderSQL (fuel + 1) (IVal.termQ term pfx op IVal.null) opt
      = .ok { Query := if pfx = "-" then term ++ " IS NOT NULL"
                       else term ++ " IS NULL",
              Args := [], Columns := [term] } := by
  intro fuel term pfx op opt hch ht
  show renderTerm opt term pfx op IVal.null = _
  unfold renderTerm
  simp [columnHandlerOf, hch, defaultColumnHandler, resolveTerm, ht]

/-- Witness for `c6_null_term_render`: `age: -null` →
`age IS NOT NULL`, no args. -/
theorem c6_witness :
    renderSQL 1 (IVal.termQ "age" "-" "" IVal.null) optRender
      = .ok { Query := "age IS NOT NULL", Args := [], Columns := ["age"] } := by
  have h := c6_null_term_render 0 "age" "-" "" optRender rfl (by decide)
  simpa using h

/-! ## C7 -/

/-- C7: `f: []` parses to `Term{term:"f", op:"in", value:[]}`; rendering
an in-term over the empty list yields `1 = 0` with no args, and over a
non-empty list yields `term IN (?)` with the list — transformed by
`inHandler` when present — as the single argument. -/
theorem c7_in_render :
    parseLucene "f: []" = .ok (IVal.termQ "f" "" "in" (IVal.arr [])) ∧
    (∀ (fuel : Nat) (term : String) (opt : ToSQLOptions),
      opt.ColumnHandler = some defaultColumnHandler → term ≠ "" →
      renderSQL (fuel + 1) (IVal.termQ term "" "in" (IVal.arr [])) opt
        = .ok { Query := "1 = 0", Args := [], Columns := [term] }) ∧
    (∀ (fuel : Nat) (term : String) (l : List IVal) (opt : ToSQLOptions),
      opt.ColumnHandler = some defaultColumnHandler → opt.InHandler = none →
      term ≠ "" → l ≠ [] →
      renderSQL (fuel + 1) (IVal.termQ term "" "in" (IVal.arr l)) opt
        = .ok { Query := term ++ " IN (?)", Args := [IVal.arr l],
                Columns := [term] }) ∧
    (∀ (fuel : Nat) (term : String) (l : List IVal) (hdl : IVal → IVal)
        (opt : ToSQLOptions),
      opt.ColumnHandler = some defaultColumnHandler →
      opt.InHandler = some hdl →
      term ≠ "" → l ≠ [] →
      renderSQL (fuel + 1) (IVal.termQ term "" "in" (IVal.arr l)) opt
        = .ok { Query := term ++ " IN (?)", Args := [hdl (IVal.arr l)],
                Columns := [term] }) := by
  have hin : (operatorMappings "in").getD "=" = "IN" := rfl
  refine ⟨rfl, ?_, ?_, ?_⟩
  · intro fuel term opt hch ht
    show renderTerm opt term "" "in" (IVal.arr []) = _
    unfold renderTerm termStep2 termStep1
    simp [columnHandlerOf, hch, defaultColumnHandler, resolveTerm, ht,
      termPrefixed, hin]
  · intro fuel term l opt hch hih ht hl
    show renderTerm opt term "" "in" (IVal.arr l) = _
    unfold renderTerm termStep2 termStep1
    simp [columnHandlerOf, hch, defaultColumnHandler, resolveTerm, ht, hih,
      termPrefixed, hl, hin]
  · intro fuel term l hdl opt hch hih ht hl
    show renderTerm opt term "" "in" (IVal.arr l) = _
    unfold renderTerm termStep2 termStep1
    simp [columnHandlerOf, hch, defaultColumnHandler, resolveTerm, ht, hih,
      termPrefixed, hl, hin]

/-- Witness for `c7_in_render`: the empty and non-empty list renders at
concrete inputs, with and without an `inHandler`. -/
theorem c7_witness :
    renderSQL 1 (IVal.termQ "f" "" "in" (IVal.arr [])) optRender
      = .ok { Query := "1 = 0", Args := [], Columns := ["f"] } ∧
    renderSQL 1 (IVal.termQ "f" "" "in" (IVal.arr [IVal.int 1])) optRender
      = .ok { Query := "f" ++ " IN (?)", Args := [IVal.arr [IVal.int 1]],
              Columns := ["f"] } ∧
    renderSQL 1 (IVal.termQ "f" "" "in" (IVal.arr [IVal.int 1]))
        { optRender with InHandler := some (fun _ => IVal.int 9) }
      = .ok { Query := "f" ++ " IN (?)", Args := [IVal.int 9],
              Columns := ["f"] } :=
  ⟨c7_in_render.2.1 0 "f" optRender rfl (by decide),
   c7_in_render.2.2.1 0 "f" [IVal.int 1] optRender rfl rfl (by decide)
     (List.cons_ne_nil _ _),
   c7_in_render.2.2.2 0 "f" [IVal.int 1] (fun _ => IVal.int 9)
     { optRender with InHandler := some (fun _ => IVal.int 9) } rfl rfl
     (by decide) (List.cons_ne_nil _ _)⟩

/-! ## C8 -/

/-- C8 counterexample: a `Range` with empty term and both bounds `*`
does NOT render successfully even though `defaultField` is non-empty —
it fails with `unknown range type` — so "if defaultField is non-empty
the rendering succeeds" is false as stated. -/
theorem c8_counterexample :
    (ToSQL (IVal.rangeQ (IVal.str "*") (IVal.str "*") "" true)
        { optNone with DefaultField := "f" }).fst
      = .error (Err.unknownRangeType "e") :=
  rfl

/-- C8 (amended): a `Term` or `Range` with empty term uses
`options.defaultField`; if that is also empty the render fails with the
`… for term without a name` error of the respective branch; if it is
non-empty the node renders exactly as the same node with the default
field as its term (minus the `Columns` entry) — which always succeeds for
a `Term`, and succeeds for a `Range` precisely when its kind is one of
gt, gte, lt, lte, between (otherwise `unknown range type` still fails). -/
theorem c8_amended :
    (∀ (fuel : Nat) (pfx op : String) (value : IVal) (opt : ToSQLOptions),
      opt.ColumnHandler = some defaultColumnHandler →
      opt.DefaultField = "" →
      renderSQL (fuel + 1) (IVal.termQ "" pfx op value) opt
        = .error (Err.invalidTermValue value)) ∧
    (∀ (fuel : Nat) (mn mx : IVal) (incl : Bool) (opt : ToSQLOptions),
      opt.ColumnHandler = some defaultColumnHandler →
      opt.DefaultField = "" →
      renderSQL (fuel + 1) (IVal.rangeQ mn mx "" incl) opt
        = .error (Err.invalidRangeTermValue mn mx "" incl)) ∧
    (∀ (fuel : Nat) (pfx op : String) (value : IVal) (opt : ToSQLOptions),
      opt.ColumnHandler = some defaultColumnHandler →
      opt.DefaultField ≠ "" →
      renderSQL (fuel + 1) (IVal.termQ "" pfx op value) opt
        = Except.map (fun q => { q with Columns := [] })
            (renderSQL (fuel + 1) (IVal.termQ opt.DefaultField pfx op value) opt) ∧
      ∃ q, renderSQL (fuel + 1) (IVal.termQ "" pfx op value) opt = .ok q) ∧
    (∀ (fuel : Nat) (mn mx : IVal) (incl : Bool) (opt : ToSQLOptions),
      opt.ColumnHandler = some defaultColumnHandler →
      opt.DefaultField ≠ "" →
      renderSQL (fuel + 1) (IVal.rangeQ mn mx "" incl) opt
        = Except.map (fun q => { q with Columns := [] })
            (renderSQL (fuel + 1) (IVal.rangeQ mn mx opt.DefaultField incl) opt) ∧
      (rangeKind mn mx incl ∈ (["gt", "gte", "lt", "lte", "between"] : List String) →
        ∃ q, renderSQL (fuel + 1) (IVal.rangeQ mn mx "" incl) opt = .ok q) ∧
      (rangeKind mn mx incl ∉ (["gt", "gte", "lt", "lte", "between"] : List String) →
        renderSQL (fuel + 1) (IVal.rangeQ mn mx "" incl) opt
          = .error (Err.unknownRangeType (rangeKind mn mx incl)))) := by
  refine ⟨?_, ?_, ?_, ?_⟩
  · intro fuel pfx op value opt hch hdf
    show renderTerm opt "" pfx op value = _
    unfold renderTerm
    simp [columnHandlerOf, hch, defaultColumnHandler, resolveTerm, hdf]
  · intro fuel mn mx incl opt hch hdf
    show renderRange opt mn mx "" incl = _
    unfold renderRange
    simp [columnHandlerOf, hch, defaultColumnHandler, resolveTerm, hdf]
  · intro fuel pfx op value opt hch hdf
    constructor
    · show renderTerm opt "" pfx op value
        = Except.map _ (renderTerm opt opt.DefaultField pfx op value)
      unfold renderTerm
      simp only [columnHandlerOf, hch, defaultColumnHandler, resolveTerm,
        ne_eq, not_true_eq_false, ite_false, hdf, if_true, ite_not]
      split <;> simp [Except.map]
    · show ∃ q, renderTerm opt "" pfx op value = .ok q
      unfold renderTerm
      simp only [columnHandlerOf, hch, defaultColumnHandler, resolveTerm,
        ne_eq, not_true_eq_false, ite_false, hdf, if_true, ite_not]
      split <;> exact ⟨_, rfl⟩
  · intro fuel mn mx incl opt hch hdf
    refine ⟨?_, ?_, ?_⟩
    · show renderRange opt mn mx "" incl
        = Except.map _ (renderRange opt mn mx opt.DefaultField incl)
      unfold renderRange
      simp only [columnHandlerOf, hch, defaultColumnHandler, resolveTerm,
        ne_eq, not_true_eq_false, ite_false, hdf, if_true, ite_not]
      split_ifs <;> simp [Except.map]
    · intro hmem
      show ∃ q, renderRange opt mn mx "" incl = .ok q
      unfold renderRange
      simp only [columnHandlerOf, hch, defaultColumnHandler, resolveTerm,
        ne_eq, not_true_eq_false, ite_false, hdf, if_true, ite_not]
      simp only [List.mem_cons, List.mem_singleton, List.not_mem_nil,
        or_false] at hmem
      rcases hmem with h | h | h | h | h <;> simp [h, hdf] <;>
        first
          | exact ⟨_, rfl⟩
          | (cases incl <;> exact ⟨_, rfl⟩)
    · intro hmem
      show renderRange opt mn mx "" incl = _
      unfold renderRange
      simp only [List.mem_cons, List.mem_singleton, List.not_mem_nil,
        or_false, not_or] at hmem
      obtain ⟨h1, h2, h3, h4, h5⟩ := hmem
      simp [columnHandlerOf, hch, defaultColumnHandler, resolveTerm, hdf,
        h1, h2, h3, h4, h5]

/-- Witness for `c8_amended` at concrete nodes (both error branches, and
both default-field substitutions). -/
theorem c8_witness :
    renderSQL 1 (IVal.termQ "" "" "" (IVal.int 7)) optRender
      = .error (Err.invalidTermValue (IVal.int 7)) ∧
    renderSQL 1 (IVal.rangeQ (IVal.int 1) (IVal.int 2) "" true) optRender
      = .error (Err.invalidRangeTermValue (IVal.int 1) (IVal.int 2) "" true) ∧
    (∃ q, renderSQL 1 (IVal.termQ "" "" "" (IVal.int 7))
        { optRender with DefaultField := "d" } = .ok q) ∧
    (∃ q, renderSQL 1 (IVal.rangeQ (IVal.int 1) (IVal.int 2) "" true)
        { optRender with DefaultField := "d" } = .ok q) :=
  ⟨c8_amended.1 0 "" "" (IVal.int 7) optRender rfl rfl,
   c8_amended.2.1 0 (IVal.int 1) (IVal.int 2) true optRender rfl rfl,
   (c8_amended.2.2.1 0 "" "" (IVal.int 7)
      { optRender with DefaultField := "d" } rfl (by decide)).2,
   (c8_amended.2.2.2 0 (IVal.int 1) (IVal.int 2) true
      { optRender with DefaultField := "d" } rfl (by decide)).2.1 (by decide)⟩

/-! ## C9 -/

/-- Space-stripping leaves no space behind. -/
theorem stripSpaces_no_space (s : String) : (stripSpaces s).data.count ' ' = 0 := by
  apply count_eq_zero_of_all_ne
  intro x hx hxc
  have hx' : x ∈ s.data.filter (fun c => !(c == ' ')) := hx
  have := (List.mem_filter.mp hx').2
  rw [hxc] at this
  simp at this

/-- C9 counterexample: a quoted group key keeps its spaces — the mask
`"a b"(c)` yields the path `["a b", "c"]`, whose first segment contains
a space. -/
theorem c9_counterexample :
    parseMasks "\"a b\"(c)" = .ok [["a b", "c"]] ∧
    ("a b" : String).data.count ' ' = 1 :=
  ⟨rfl, rfl⟩

/-- C9 (amended): the `Term` reduction space-strips every segment it
produces, and the `Path` reduction strips every segment except its
leading one; but a group key (or leading `Path` segment) taken from a
quoted term is used verbatim, so segments with spaces can reach the
output through a `TermGroup` key, as in the counterexample. -/
theorem c9_amended :
    (∀ (id : String) (vals : List String),
      ∀ p ∈ (termFmAction id vals).paths, ∀ seg ∈ p, seg.data.count ' ' = 0) ∧
    (∀ (id : String) (vals : List String),
      ∀ seg ∈ (pathAction id vals).drop 1, seg.data.count ' ' = 0) := by
  constructor
  · intro id vals p hp seg hseg
    have hp' : p = stripSpaces id :: vals.map stripSpaces := by
      simpa [termFmAction, Mask.paths] using hp
    subst hp'
    rcases List.mem_cons.mp hseg with h | h
    · subst h; exact stripSpaces_no_space id
    · obtain ⟨pre, _, rfl⟩ := List.mem_map.mp h
      exact stripSpaces_no_space pre
  · intro id vals seg hseg
    have : seg ∈ vals.map stripSpaces := by
      simpa [pathAction] using hseg
    obtain ⟨pre, _, rfl⟩ := List.mem_map.mp this
    exact stripSpaces_no_space pre

/-! ## C10 -/

mutual
theorem updateFieldName_rangeTerms : ∀ (v : IVal) (name : String),
    rangeTermsOf (updateFieldName v name) = rangeTermsOf v
  | IVal.null, _ => rfl
  | IVal.bool _, _ => rfl
  | IVal.int _, _ => rfl
  | IVal.dec _, _ => rfl
  | IVal.str _, _ => rfl
  | IVal.wc _ _ _, _ => rfl
  | IVal.arr l, name => updateFieldNameList_rangeTerms l name
  | IVal.termQ _ _ _ _, _ => rfl
  | IVal.rangeQ _ _ _ _, _ => rfl
  | IVal.boolE _ args, name => updateFieldNameList_rangeTerms args name

theorem updateFieldNameList_rangeTerms : ∀ (l : List IVal) (name : String),
    rangeTermsOfList (updateFieldNameList l name) = rangeTermsOfList l
  | [], _ => rfl
  | x :: xs, name => by
    show rangeTermsOf (updateFieldName x name)
        ++ rangeTermsOfList (updateFieldNameList xs name)
      = rangeTermsOf x ++ rangeTermsOfList xs
    rw [updateFieldName_rangeTerms x name,
      updateFieldNameList_rangeTerms xs name]
end

/-- C10: field-name propagation for `F:(E)` rewrites only `Term` nodes —
`updateFieldName` leaves every `RangeQuery` (and in particular its term)
unchanged throughout the tree; concretely `F:([1 TO 2])` parses to a
Range with empty term, which then renders with `options.defaultField`
as the column (contributing nothing to `Columns`) or fails without one. -/
theorem c10_range_not_propagated :
    (∀ (v : IVal) (name : String),
      rangeTermsOf (updateFieldName v name) = rangeTermsOf v) ∧
    (∀ (mn mx : IVal) (t : String) (incl : Bool) (name : String),
      updateFieldName (IVal.rangeQ mn mx t incl) name
        = IVal.rangeQ mn mx t incl) ∧
    parseLucene "F:([1 TO 2])"
      = .ok (IVal.rangeQ (IVal.int 1) (IVal.int 2) "" true) ∧
    (∀ (fuel : Nat) (opt : ToSQLOptions),
      opt.ColumnHandler = some defaultColumnHandler →
      (opt.DefaultField = "" →
        renderSQL (fuel + 1) (IVal.rangeQ (IVal.int 1) (IVal.int 2) "" true) opt
          = .error (Err.invalidRangeTermValue (IVal.int 1) (IVal.int 2) "" true)) ∧
      (opt.DefaultField ≠ "" →
        renderSQL (fuel + 1) (IVal.rangeQ (IVal.int 1) (IVal.int 2) "" true) opt
          = .ok { Query := opt.DefaultField ++ " BETWEEN ? and ?",
                  Args := [IVal.int 1, IVal.int 2], Columns := [] })) := by
  refine ⟨updateFieldName_rangeTerms, fun _ _ _ _ _ => rfl, rfl, ?_⟩
  intro fuel opt hch
  constructor
  · intro hdf
    show renderRange opt (IVal.int 1) (IVal.int 2) "" true = _
    unfold renderRange
    simp [columnHandlerOf, hch, defaultColumnHandler, resolveTerm, hdf]
  · intro hdf
    show renderRange opt (IVal.int 1) (IVal.int 2) "" true = _
    unfold renderRange
    simp only [columnHandlerOf, hch, defaultColumnHandler, resolveTerm,
      ne_eq, not_true_eq_false, ite_false, hdf, if_true, ite_not]
    have hk : rangeKind (IVal.int 1) (IVal.int 2) true = "between" := rfl
    simp only [hk, ite_true, if_true]
    rw [if_neg (by decide), if_neg (by decide), String.append_assoc,
      String.append_assoc]
    rfl

/-- Witness for `c10_range_not_propagated`'s rendering clauses. -/
theorem c10_witness :
    renderSQL 1 (IVal.rangeQ (IVal.int 1) (IVal.int 2) "" true) optRender
      = .error (Err.invalidRangeTermValue (IVal.int 1) (IVal.int 2) "" true) ∧
    renderSQL 1 (IVal.rangeQ (IVal.int 1) (IVal.int 2) "" true)
        { optRender with DefaultField := "age" }
      = .ok { Query := "age" ++ " BETWEEN ? and ?",
              Args := [IVal.int 1, IVal.int 2], Columns := [] } :=
  ⟨(c10_range_not_propagated.2.2.2 0 optRender rfl).1 rfl,
   (c10_range_not_propagated.2.2.2 0
      { optRender with DefaultField := "age" } rfl).2 (by decide)⟩

/-- Witness for `c3_amended`: determinism and the frame conditions at a
concrete filter and options value. -/
theorem c3_witness :
    ToSQL (IVal.str "a: 1") optNone
      = ToSQL (IVal.str "a: 1")
          { DefaultField := "", SearchMode := SearchMode.any,
            InHandler := none, ColumnHandler := none } ∧
    (ToSQL (IVal.str "a: 1") optNone).snd.DefaultField = optNone.DefaultField :=
  ⟨c3_amended.1 (IVal.str "a: 1") optNone
      { DefaultField := "", SearchMode := SearchMode.any,
        InHandler := none, ColumnHandler := none } rfl rfl rfl rfl,
   (c3_amended.2 (IVal.str "a: 1") optNone).1⟩

/-- Witness for `c9_amended`: the single-segment term `a b` is stripped
to `ab`. -/
theorem c9_witness : (stripSpaces "a b").data.count ' ' = 0 :=
  c9_amended.1 "a b" [] [stripSpaces "a b"]
    (by simp [termFmAction, Mask.paths]) (stripSpaces "a b") (by simp)
